import Mathlib

/-
Shallow embedding of the protokit descriptor-tree assembler.

Sources (Go):
  src/unnamed/part_000 : current entity types (`common`, `newCommon`, the PK*
    descriptor structs and their lookup accessors).
  src/unnamed/part_001 (first half, lines 1-366) : current parser
    (`parseFile`, the entity builders, `parseAllImports`,
    `ParseCodeGenRequestAllFiles`).
  src/types.go : legacy entity types (legacy `newCommon` without the
    leading-dot enforcement).
  src/unnamed/part_001 (second half, lines 367-715) : legacy parser variant
    (`ParseCodeGenRequestAllFiles` without the final name sort and without
    dependency wiring).

Modelling conventions:
  * Go strings are Lean `String`s (inputs are ASCII identifiers, so byte-wise
    Go operations coincide with the character-wise Lean ones used here).
  * Go maps `map[string]*PKFileDescriptor` are association lists with
    insert-or-replace; Go's unspecified map iteration order is modelled as
    insertion order (one admissible order).
  * Go pointers between files are represented by the key under which the
    pointee sits in the map: a `Dependencies` entry is `some name` when the
    Go code stored a non-nil `*PKFileDescriptor` (found under `name`) and
    `none` when it stored nil.  Parent back-pointers inside a file are not
    stored; the builders only read the parent's `LongName` and `path`, which
    are threaded down explicitly (Go threads the parent through a Context).
  * Go panics (nil dereference, `log.Fatal`) are modelled as `none` results.
  * The option/extension scanner (`getOptions`/`setOptions`) and the
    protoreflect mirror objects are outside every claim and are omitted from
    the embedded structs.
  * `ParseComments` and `Comments.Get` live in comment.go, which is not under
    src/; they are modelled from the spec (see `ParseComments`/`commentsGet`).
-/

/-- A Comment value: leading text, trailing text and detached blocks
(spec section 4.1). -/
structure Comment where
  leading : String
  trailing : String
  detached : List String
deriving DecidableEq, Repr, Inhabited

/-- Modelled from the spec: the "no comment" value returned by the Comment
Index for a path with no authored documentation (comment.go is not under
src/). -/
def emptyComment : Comment := { leading := "", trailing := "", detached := [] }

/-- The Comment Index: a mapping from dotted-integer location path to the
Comment value (spec section 4.1). -/
abbrev CommentIndex := List (String × Comment)

/-- Association-list lookup modelling a read from a Go `map[string]V`. -/
def mapLookup {V : Type} : List (String × V) → String → Option V
  | [], _ => none
  | (k, v) :: rest, key => if k = key then some v else mapLookup rest key

/-- Modelled from the spec: `Comments.Get` of comment.go (not under src/):
"Lookup by exact path string; missing path yields a no-comment value (not an
error)" — total, never an absent result. -/
def commentsGet (cs : CommentIndex) (path : String) : Comment :=
  match mapLookup cs path with
  | some c => c
  | none => emptyComment

/-- descriptorpb.EnumValueDescriptorProto (the fields the core reads). -/
structure EnumValueDescriptorProto where
  name : String
deriving DecidableEq, Repr, Inhabited

/-- descriptorpb.EnumDescriptorProto (the fields the core reads). -/
structure EnumDescriptorProto where
  name : String
  value : List EnumValueDescriptorProto
deriving DecidableEq, Repr, Inhabited

/-- descriptorpb.FieldDescriptorProto (the fields the core reads; used both
for message fields and for extensions). -/
structure FieldDescriptorProto where
  name : String
  extendee : String
deriving DecidableEq, Repr, Inhabited

/-- descriptorpb.MethodDescriptorProto (the fields the core reads). -/
structure MethodDescriptorProto where
  name : String
  inputType : String
  outputType : String
deriving DecidableEq, Repr, Inhabited

/-- descriptorpb.ServiceDescriptorProto (the fields the core reads). -/
structure ServiceDescriptorProto where
  name : String
  method : List MethodDescriptorProto
deriving DecidableEq, Repr, Inhabited

/-- descriptorpb.DescriptorProto (a message).  `mapEntry` is
`options.GetMapEntry()`; a nil options message yields `false`, matching Go's
getter chain `GetOptions().GetMapEntry()`. -/
inductive DescriptorProto where
  | mk (name : String) (field : List FieldDescriptorProto)
      (nestedType : List DescriptorProto)
      (enumType : List EnumDescriptorProto)
      (extension : List FieldDescriptorProto)
      (mapEntry : Bool)

def DescriptorProto.name : DescriptorProto → String
  | .mk n _ _ _ _ _ => n

def DescriptorProto.field : DescriptorProto → List FieldDescriptorProto
  | .mk _ f _ _ _ _ => f

def DescriptorProto.nestedType : DescriptorProto → List DescriptorProto
  | .mk _ _ nt _ _ _ => nt

def DescriptorProto.enumType : DescriptorProto → List EnumDescriptorProto
  | .mk _ _ _ et _ _ => et

def DescriptorProto.extension : DescriptorProto → List FieldDescriptorProto
  | .mk _ _ _ _ ex _ => ex

def DescriptorProto.mapEntry : DescriptorProto → Bool
  | .mk _ _ _ _ _ me => me

instance : Inhabited DescriptorProto :=
  ⟨DescriptorProto.mk "" [] [] [] [] false⟩

/-- descriptorpb.FileDescriptorProto (the fields the core reads).  `pkg` is
the Go `package` field.  `sourceInfo` stands for the already-parsed positional
documentation table (`SourceCodeInfo`): `ParseComments` of comment.go, which
is not under src/, is modelled as reading this table verbatim. -/
structure FileDescriptorProto where
  name : String
  pkg : String
  dependency : List String
  publicDependency : List Nat
  messageType : List DescriptorProto
  enumType : List EnumDescriptorProto
  service : List ServiceDescriptorProto
  extension : List FieldDescriptorProto
  sourceInfo : CommentIndex
deriving Inhabited

/-- pluginpb.CodeGeneratorRequest (the fields the core reads). -/
structure CodeGeneratorRequest where
  fileToGenerate : List String
  protoFile : List FileDescriptorProto

/-- Models Go `strings.HasPrefix(s, ".")`: the first character is a dot. -/
def startsWithDot (s : String) : Bool :=
  match s.data with
  | [] => false
  | c :: _ => c == '.'

/-- The `common` facet shared by every entity (src/unnamed/part_000 lines
14-21): the construction-time documentation path, the long name and the full
name.  The non-owning file back-pointer and the option-extension map carried
by the Go struct are outside every claim and are omitted; the file's package
is passed to `newCommon` directly instead of through the back-pointer. -/
structure Common where
  path : String
  LongName : String
  FullName : String
deriving DecidableEq, Repr, Inhabited

/-- `newCommon` of src/unnamed/part_000 lines 23-38 (current variant):
starts from the long name, prefixes the package when the long name does not
already start with a dot, then enforces a leading dot. -/
def newCommon (pkg path longName : String) : Common :=
  let fn :=
    if startsWithDot longName then longName
    else
      let fn1 := pkg ++ "." ++ longName
      if startsWithDot fn1 then fn1 else "." ++ fn1
  { path := path, LongName := longName, FullName := fn }

/-- `newCommon` of src/types.go lines 21-33 (legacy variant): prefixes the
package when the long name does not already start with a dot, with no
leading-dot enforcement. -/
def newCommonLegacy (pkg path longName : String) : Common :=
  let fn := if startsWithDot longName then longName else pkg ++ "." ++ longName
  { path := path, LongName := longName, FullName := fn }

/-- `sub` occurs as a contiguous run inside `s`. -/
def listInfix (sub : List Char) : List Char → Bool
  | [] => sub.isEmpty
  | c :: rest => sub.isPrefixOf (c :: rest) || listInfix sub rest

/-- Models Go `strings.Contains(s, sub)` on the ASCII identifier strings the
assembler handles. -/
def strContains (s sub : String) : Bool :=
  listInfix sub.data s.data

/-- Models Go `strings.Split(s, ".")` on the character list of `s`: the
result is never empty (splitting the empty string gives one empty group). -/
def splitCharsOnDot : List Char → List (List Char)
  | [] => [[]]
  | c :: rest =>
    if c = '.' then [] :: splitCharsOnDot rest
    else
      match splitCharsOnDot rest with
      | [] => [[c]]
      | g :: gs => (c :: g) :: gs

/-- Models Go `parts := strings.Split(s, "."); parts[len(parts)-1]`
(src/unnamed/part_001 lines 215-216): the last dot-separated segment.
The split is never empty, so the default is never used. -/
def lastDotSegment (s : String) : String :=
  String.mk ((splitCharsOnDot s.data).getLastD [])

/-- Comment-path tag constants of src/unnamed/part_001 lines 19-39.
`stxCommentPath` is the file-level tag the source calls the syntax comment
path. -/
def packageCommentPath : Nat := 2

def messageCommentPath : Nat := 4

def enumCommentPath : Nat := 5

def serviceCommentPath : Nat := 6

def extensionCommentPath : Nat := 7

def stxCommentPath : Nat := 12

def messageFieldCommentPath : Nat := 2

def messageMessageCommentPath : Nat := 3

def messageEnumCommentPath : Nat := 4

def messageExtensionCommentPath : Nat := 6

def enumValueCommentPath : Nat := 2

def serviceMethodCommentPath : Nat := 2

/-- PKEnumValueDescriptor (src/unnamed/part_000 lines 239-244). -/
structure PKEnumValueDescriptor where
  common : Common
  desc : EnumValueDescriptorProto
  Comments : Comment
deriving DecidableEq, Repr, Inhabited

/-- PKEnumDescriptor (src/unnamed/part_000 lines 204-210).  The `Parent`
back-pointer is not stored (see the header note). -/
structure PKEnumDescriptor where
  common : Common
  desc : EnumDescriptorProto
  Values : List PKEnumValueDescriptor
  Comments : Comment
deriving DecidableEq, Repr, Inhabited

/-- PKFieldDescriptor (src/unnamed/part_000 lines 361-366).  The owning
`Message` back-pointer is not stored. -/
structure PKFieldDescriptor where
  common : Common
  desc : FieldDescriptorProto
  Comments : Comment
deriving DecidableEq, Repr, Inhabited

/-- PKExtensionDescriptor (src/unnamed/part_000 lines 259-265).  The `Parent`
back-pointer and the protoreflect `ExtensionDescriptor` are not stored. -/
structure PKExtensionDescriptor where
  common : Common
  desc : FieldDescriptorProto
  Comments : Comment
deriving DecidableEq, Repr, Inhabited

/-- PKDescriptor, a message (src/unnamed/part_000 lines 290-299).  The
`Parent` back-pointer is not stored. -/
inductive PKDescriptor where
  | mk (common : Common) (desc : DescriptorProto) (Comments : Comment)
      (Enums : List PKEnumDescriptor)
      (Extensions : List PKExtensionDescriptor)
      (Fields : List PKFieldDescriptor)
      (Messages : List PKDescriptor)

def PKDescriptor.common : PKDescriptor → Common
  | .mk c _ _ _ _ _ _ => c

def PKDescriptor.desc : PKDescriptor → DescriptorProto
  | .mk _ d _ _ _ _ _ => d

def PKDescriptor.Comments : PKDescriptor → Comment
  | .mk _ _ cm _ _ _ _ => cm

def PKDescriptor.Enums : PKDescriptor → List PKEnumDescriptor
  | .mk _ _ _ es _ _ _ => es

def PKDescriptor.Extensions : PKDescriptor → List PKExtensionDescriptor
  | .mk _ _ _ _ xs _ _ => xs

def PKDescriptor.Fields : PKDescriptor → List PKFieldDescriptor
  | .mk _ _ _ _ _ fs _ => fs

def PKDescriptor.Messages : PKDescriptor → List PKDescriptor
  | .mk _ _ _ _ _ _ ms => ms

instance : Inhabited PKDescriptor :=
  ⟨PKDescriptor.mk default default default [] [] [] []⟩

/-- PKMethodDescriptor (src/unnamed/part_000 lines 413-421).  `InputType` and
`OutputType` hold the resolved message (`none` models Go's nil).  The owning
`Service` back-pointer and the protoreflect `MethodDescriptor` are not
stored. -/
structure PKMethodDescriptor where
  common : Common
  desc : MethodDescriptorProto
  Comments : Comment
  InputType : Option PKDescriptor
  OutputType : Option PKDescriptor

/-- PKServiceDescriptor (src/unnamed/part_000 lines 381-387).  The
protoreflect `ServiceDescriptor` is not stored. -/
structure PKServiceDescriptor where
  common : Common
  desc : ServiceDescriptorProto
  Comments : Comment
  Methods : List PKMethodDescriptor

/-- PKImportedDescriptor (src/unnamed/part_000 lines 90-92): one imported
entity, carrying only a copy of the original entity's common facet. -/
structure PKImportedDescriptor where
  common : Common
deriving DecidableEq, Repr, Inhabited

/-- PKFileDescriptor (src/unnamed/part_000 lines 95-114).  `Dependencies` and
`PublicDependencies` hold, for each slot, the map key of the pointed-to file
(`none` models a stored nil pointer).  The protoreflect `FileDescriptor` is
not stored. -/
structure PKFileDescriptor where
  comments : CommentIndex
  desc : FileDescriptorProto
  PackageComments : Comment
  SyntaxComments : Comment
  Enums : List PKEnumDescriptor
  Extensions : List PKExtensionDescriptor
  Imports : List PKImportedDescriptor
  Messages : List PKDescriptor
  Services : List PKServiceDescriptor
  Dependencies : List (Option String)
  PublicDependencies : List (Option String)
  IsFileToGenerate : Bool

instance : Inhabited PKMethodDescriptor :=
  ⟨default, default, default, none, none⟩

instance : Inhabited PKServiceDescriptor :=
  ⟨default, default, default, []⟩

instance : Inhabited PKFileDescriptor :=
  ⟨[], default, default, default, [], [], [], [], [], [], [], false⟩

def PKEnumValueDescriptor.GetName (v : PKEnumValueDescriptor) : String := v.desc.name

def PKEnumValueDescriptor.GetLongName (v : PKEnumValueDescriptor) : String := v.common.LongName

def PKEnumValueDescriptor.GetFullName (v : PKEnumValueDescriptor) : String := v.common.FullName

def PKEnumValueDescriptor.GetComments (v : PKEnumValueDescriptor) : Comment := v.Comments

def PKEnumDescriptor.GetName (e : PKEnumDescriptor) : String := e.desc.name

def PKEnumDescriptor.GetLongName (e : PKEnumDescriptor) : String := e.common.LongName

def PKEnumDescriptor.GetFullName (e : PKEnumDescriptor) : String := e.common.FullName

def PKEnumDescriptor.GetComments (e : PKEnumDescriptor) : Comment := e.Comments

/-- `PKEnumDescriptor.GetNamedValue` (src/unnamed/part_000 lines 228-236):
first value whose simple name matches. -/
def PKEnumDescriptor.GetNamedValue (e : PKEnumDescriptor) (name : String) :
    Option PKEnumValueDescriptor :=
  e.Values.find? (fun v => v.GetName == name)

def PKFieldDescriptor.GetName (f : PKFieldDescriptor) : String := f.desc.name

def PKFieldDescriptor.GetLongName (f : PKFieldDescriptor) : String := f.common.LongName

def PKFieldDescriptor.GetFullName (f : PKFieldDescriptor) : String := f.common.FullName

def PKFieldDescriptor.GetComments (f : PKFieldDescriptor) : Comment := f.Comments

def PKExtensionDescriptor.GetName (e : PKExtensionDescriptor) : String := e.desc.name

def PKExtensionDescriptor.GetLongName (e : PKExtensionDescriptor) : String := e.common.LongName

def PKExtensionDescriptor.GetFullName (e : PKExtensionDescriptor) : String := e.common.FullName

def PKExtensionDescriptor.GetComments (e : PKExtensionDescriptor) : Comment := e.Comments

def PKDescriptor.GetName (m : PKDescriptor) : String := m.desc.name

def PKDescriptor.GetLongName (m : PKDescriptor) : String := m.common.LongName

def PKDescriptor.GetFullName (m : PKDescriptor) : String := m.common.FullName

def PKDescriptor.GetComments (m : PKDescriptor) : Comment := m.Comments

/-- `PKDescriptor.GetEnum` (src/unnamed/part_000 lines 325-334): nested enum
by simple or long name. -/
def PKDescriptor.GetEnum (m : PKDescriptor) (name : String) : Option PKEnumDescriptor :=
  m.Enums.find? (fun e => e.GetName == name || e.GetLongName == name)

/-- `PKDescriptor.GetMessage` (src/unnamed/part_000 lines 338-347): nested
message by simple or long name. -/
def PKDescriptor.GetMessage (m : PKDescriptor) (name : String) : Option PKDescriptor :=
  m.Messages.find? (fun msg => msg.GetName == name || msg.GetLongName == name)

/-- `PKDescriptor.GetMessageField` (src/unnamed/part_000 lines 350-358):
field by simple or long name. -/
def PKDescriptor.GetMessageField (m : PKDescriptor) (name : String) : Option PKFieldDescriptor :=
  m.Fields.find? (fun f => f.GetName == name || f.GetLongName == name)

def PKMethodDescriptor.GetName (m : PKMethodDescriptor) : String := m.desc.name

def PKMethodDescriptor.GetLongName (m : PKMethodDescriptor) : String := m.common.LongName

def PKMethodDescriptor.GetFullName (m : PKMethodDescriptor) : String := m.common.FullName

def PKMethodDescriptor.GetComments (m : PKMethodDescriptor) : Comment := m.Comments

def PKMethodDescriptor.GetInputType (m : PKMethodDescriptor) : Option PKDescriptor := m.InputType

def PKMethodDescriptor.GetOutputType (m : PKMethodDescriptor) : Option PKDescriptor := m.OutputType

def PKServiceDescriptor.GetName (s : PKServiceDescriptor) : String := s.desc.name

def PKServiceDescriptor.GetLongName (s : PKServiceDescriptor) : String := s.common.LongName

def PKServiceDescriptor.GetFullName (s : PKServiceDescriptor) : String := s.common.FullName

def PKServiceDescriptor.GetComments (s : PKServiceDescriptor) : Comment := s.Comments

/-- `PKServiceDescriptor.GetNamedMethod` (src/unnamed/part_000 lines
402-410): method by simple or long name. -/
def PKServiceDescriptor.GetNamedMethod (s : PKServiceDescriptor) (name : String) :
    Option PKMethodDescriptor :=
  s.Methods.find? (fun m => m.GetName == name || m.GetLongName == name)

def PKFileDescriptor.GetName (f : PKFileDescriptor) : String := f.desc.name

def PKFileDescriptor.GetPackage (f : PKFileDescriptor) : String := f.desc.pkg

def PKFileDescriptor.GetComments (f : PKFileDescriptor) : Comment := f.PackageComments

/-- `PKFileDescriptor.GetEnum` (src/unnamed/part_000 lines 159-167):
top-level enum by simple or long name. -/
def PKFileDescriptor.GetEnum (f : PKFileDescriptor) (name : String) : Option PKEnumDescriptor :=
  f.Enums.find? (fun e => e.GetName == name || e.GetLongName == name)

/-- The search of `PKFileDescriptor.GetMessage` (src/unnamed/part_000 lines
170-178) over an explicit top-level message list: simple, long or full name.
Factored out because `parseServiceMethods` runs this search while the file is
still being assembled (Go calls the method on the partially-built file). -/
def getMessageIn (msgs : List PKDescriptor) (name : String) : Option PKDescriptor :=
  msgs.find? (fun m => m.GetName == name || m.GetLongName == name || m.GetFullName == name)

/-- `PKFileDescriptor.GetMessage` (src/unnamed/part_000 lines 170-178). -/
def PKFileDescriptor.GetMessage (f : PKFileDescriptor) (name : String) : Option PKDescriptor :=
  getMessageIn f.Messages name

/-- `PKFileDescriptor.GetService` (src/unnamed/part_000 lines 181-189):
service by simple or long name. -/
def PKFileDescriptor.GetService (f : PKFileDescriptor) (name : String) :
    Option PKServiceDescriptor :=
  f.Services.find? (fun s => s.GetName == name || s.GetLongName == name)

/-- Modelled from the spec: `ParseComments` of comment.go (not under src/)
turns the file's positional documentation table into the path-to-comment
index; the table is carried already-parsed in `sourceInfo`. -/
def ParseComments (fd : FileDescriptorProto) : CommentIndex := fd.sourceInfo

/-- The loop body of `parseEnumValues` (src/unnamed/part_001 lines 183-203)
at index `i`: long name is the owning enum's long name plus the value name;
the comment path is the enum's path extended with tag 2 and the index. -/
def enumValueAt (pkg : String) (cs : CommentIndex) (enumC : Common) (i : Nat)
    (vd : EnumValueDescriptorProto) : PKEnumValueDescriptor :=
  let longName := enumC.LongName ++ "." ++ vd.name
  { common := newCommon pkg "" longName
    desc := vd
    Comments := commentsGet cs
      (enumC.path ++ "." ++ toString enumValueCommentPath ++ "." ++ toString i) }

def parseEnumValuesGo (pkg : String) (cs : CommentIndex) (enumC : Common) :
    Nat → List EnumValueDescriptorProto → List PKEnumValueDescriptor
  | _, [] => []
  | i, vd :: rest => enumValueAt pkg cs enumC i vd :: parseEnumValuesGo pkg cs enumC (i + 1) rest

/-- `parseEnumValues` (src/unnamed/part_001 lines 183-203). -/
def parseEnumValues (pkg : String) (cs : CommentIndex) (enumC : Common)
    (protos : List EnumValueDescriptorProto) : List PKEnumValueDescriptor :=
  parseEnumValuesGo pkg cs enumC 0 protos

/-- The loop body of `parseEnums` (src/unnamed/part_001 lines 152-181) at
index `i`: top-level enums use path `5.i` and their bare name; nested enums
use the parent's path extended with tag 4 and the parent-prefixed long
name. -/
def enumAt (pkg : String) (cs : CommentIndex) (parent : Option Common) (i : Nat)
    (ed : EnumDescriptorProto) : PKEnumDescriptor :=
  let longName :=
    match parent with
    | some p => p.LongName ++ "." ++ ed.name
    | none => ed.name
  let commentPath :=
    match parent with
    | some p => p.path ++ "." ++ toString messageEnumCommentPath ++ "." ++ toString i
    | none => toString enumCommentPath ++ "." ++ toString i
  let c := newCommon pkg commentPath longName
  { common := c
    desc := ed
    Values := parseEnumValues pkg cs c ed.value
    Comments := commentsGet cs commentPath }

def parseEnumsGo (pkg : String) (cs : CommentIndex) (parent : Option Common) :
    Nat → List EnumDescriptorProto → List PKEnumDescriptor
  | _, [] => []
  | i, ed :: rest => enumAt pkg cs parent i ed :: parseEnumsGo pkg cs parent (i + 1) rest

/-- `parseEnums` (src/unnamed/part_001 lines 152-181). -/
def parseEnums (pkg : String) (cs : CommentIndex) (parent : Option Common)
    (protos : List EnumDescriptorProto) : List PKEnumDescriptor :=
  parseEnumsGo pkg cs parent 0 protos

/-- The loop body of `parseExtensions` (src/unnamed/part_001 lines 205-236)
at index `i`: the naive long name `extendee + "." + name` collapses to the
last extendee segment plus the name whenever the file's package occurs as a
substring of the naive long name. -/
def extensionAt (pkg : String) (cs : CommentIndex) (parent : Option Common) (i : Nat)
    (ext : FieldDescriptorProto) : PKExtensionDescriptor :=
  let naive := ext.extendee ++ "." ++ ext.name
  let longName :=
    if strContains naive pkg then lastDotSegment ext.extendee ++ "." ++ ext.name
    else naive
  let commentPath :=
    match parent with
    | some p => p.path ++ "." ++ toString messageExtensionCommentPath ++ "." ++ toString i
    | none => toString extensionCommentPath ++ "." ++ toString i
  { common := newCommon pkg commentPath longName
    desc := ext
    Comments := commentsGet cs commentPath }

def parseExtensionsGo (pkg : String) (cs : CommentIndex) (parent : Option Common) :
    Nat → List FieldDescriptorProto → List PKExtensionDescriptor
  | _, [] => []
  | i, ext :: rest => extensionAt pkg cs parent i ext :: parseExtensionsGo pkg cs parent (i + 1) rest

/-- `parseExtensions` (src/unnamed/part_001 lines 205-236). -/
def parseExtensions (pkg : String) (cs : CommentIndex) (parent : Option Common)
    (protos : List FieldDescriptorProto) : List PKExtensionDescriptor :=
  parseExtensionsGo pkg cs parent 0 protos

/-- The loop body of `parseMessageFields` (src/unnamed/part_001 lines
295-315) at index `i`: long name is the owning message's long name plus the
field name; the comment path is the message's path extended with tag 2. -/
def fieldAt (pkg : String) (cs : CommentIndex) (msgC : Common) (i : Nat)
    (fd : FieldDescriptorProto) : PKFieldDescriptor :=
  let longName := msgC.LongName ++ "." ++ fd.name
  { common := newCommon pkg "" longName
    desc := fd
    Comments := commentsGet cs
      (msgC.path ++ "." ++ toString messageFieldCommentPath ++ "." ++ toString i) }

def parseMessageFieldsGo (pkg : String) (cs : CommentIndex) (msgC : Common) :
    Nat → List FieldDescriptorProto → List PKFieldDescriptor
  | _, [] => []
  | i, fd :: rest => fieldAt pkg cs msgC i fd :: parseMessageFieldsGo pkg cs msgC (i + 1) rest

/-- `parseMessageFields` (src/unnamed/part_001 lines 295-315). -/
def parseMessageFields (pkg : String) (cs : CommentIndex) (msgC : Common)
    (protos : List FieldDescriptorProto) : List PKFieldDescriptor :=
  parseMessageFieldsGo pkg cs msgC 0 protos

mutual

/-- The loop body of `parseMessages` (src/unnamed/part_001 lines 261-293) at
index `i`: top-level messages use path `4.i` and their bare name; nested
messages use the parent's path extended with tag 3 and the parent-prefixed
long name; children (enums, extensions, fields, nested messages) are built
with the fresh common as their parent context. -/
def messageAt (pkg : String) (cs : CommentIndex) (parent : Option Common) (i : Nat) :
    DescriptorProto → PKDescriptor
  | DescriptorProto.mk nm flds nested enms exts me =>
    let md := DescriptorProto.mk nm flds nested enms exts me
    let longName :=
      match parent with
      | some p => p.LongName ++ "." ++ nm
      | none => nm
    let commentPath :=
      match parent with
      | some p => p.path ++ "." ++ toString messageMessageCommentPath ++ "." ++ toString i
      | none => toString messageCommentPath ++ "." ++ toString i
    let c := newCommon pkg commentPath longName
    PKDescriptor.mk c md (commentsGet cs commentPath)
      (parseEnums pkg cs (some c) enms)
      (parseExtensions pkg cs (some c) exts)
      (parseMessageFields pkg cs c flds)
      (parseMessagesGo pkg cs (some c) 0 nested)

def parseMessagesGo (pkg : String) (cs : CommentIndex) (parent : Option Common) :
    Nat → List DescriptorProto → List PKDescriptor
  | _, [] => []
  | i, md :: rest => messageAt pkg cs parent i md :: parseMessagesGo pkg cs parent (i + 1) rest

end

/-- `parseMessages` (src/unnamed/part_001 lines 261-293). -/
def parseMessages (pkg : String) (cs : CommentIndex) (parent : Option Common)
    (protos : List DescriptorProto) : List PKDescriptor :=
  parseMessagesGo pkg cs parent 0 protos

/-- The loop body of `parseServiceMethods` (src/unnamed/part_001 lines
342-366) at index `i`: input and output types are resolved immediately by
`file.GetMessage` over the owning file's top-level messages (`msgs`). -/
def methodAt (pkg : String) (cs : CommentIndex) (svcC : Common) (msgs : List PKDescriptor)
    (i : Nat) (md : MethodDescriptorProto) : PKMethodDescriptor :=
  let longName := svcC.LongName ++ "." ++ md.name
  { common := newCommon pkg "" longName
    desc := md
    Comments := commentsGet cs
      (svcC.path ++ "." ++ toString serviceMethodCommentPath ++ "." ++ toString i)
    InputType := getMessageIn msgs md.inputType
    OutputType := getMessageIn msgs md.outputType }

def parseServiceMethodsGo (pkg : String) (cs : CommentIndex) (svcC : Common)
    (msgs : List PKDescriptor) :
    Nat → List MethodDescriptorProto → List PKMethodDescriptor
  | _, [] => []
  | i, md :: rest =>
    methodAt pkg cs svcC msgs i md :: parseServiceMethodsGo pkg cs svcC msgs (i + 1) rest

/-- `parseServiceMethods` (src/unnamed/part_001 lines 342-366). -/
def parseServiceMethods (pkg : String) (cs : CommentIndex) (svcC : Common)
    (msgs : List PKDescriptor) (protos : List MethodDescriptorProto) :
    List PKMethodDescriptor :=
  parseServiceMethodsGo pkg cs svcC msgs 0 protos

/-- The loop body of `parseServices` (src/unnamed/part_001 lines 317-340) at
index `i`: services are always top-level, path `6.i`, bare name as long
name.  `msgs` is the owning file's already-assembled top-level message list,
read by the method builder. -/
def serviceAt (pkg : String) (cs : CommentIndex) (msgs : List PKDescriptor) (i : Nat)
    (sd : ServiceDescriptorProto) : PKServiceDescriptor :=
  let commentPath := toString serviceCommentPath ++ "." ++ toString i
  let c := newCommon pkg commentPath sd.name
  { common := c
    desc := sd
    Comments := commentsGet cs commentPath
    Methods := parseServiceMethods pkg cs c msgs sd.method }

def parseServicesGo (pkg : String) (cs : CommentIndex) (msgs : List PKDescriptor) :
    Nat → List ServiceDescriptorProto → List PKServiceDescriptor
  | _, [] => []
  | i, sd :: rest => serviceAt pkg cs msgs i sd :: parseServicesGo pkg cs msgs (i + 1) rest

/-- `parseServices` (src/unnamed/part_001 lines 317-340). -/
def parseServices (pkg : String) (cs : CommentIndex) (msgs : List PKDescriptor)
    (protos : List ServiceDescriptorProto) : List PKServiceDescriptor :=
  parseServicesGo pkg cs msgs 0 protos

/-- Association-list insert-or-replace modelling a write to a Go
`map[string]V`. -/
def mapInsert {V : Type} : List (String × V) → String → V → List (String × V)
  | [], k, v => [(k, v)]
  | (k0, v0) :: rest, k, v =>
    if k0 = k then (k, v) :: rest else (k0, v0) :: mapInsert rest k v

/-- The file-name-keyed map built by the Batch Driver. -/
abbrev FileMap := List (String × PKFileDescriptor)

/-- `parseFile` (src/unnamed/part_001 lines 119-150, current variant).
`allFilesMap` is the shared all-files map as it stands when this file is
parsed; the dependency loops at lines 142-147 read it immediately, storing
nil (here `none`) for any dependency name not yet present.  An out-of-range
public-dependency index (which would panic in Go) is modelled as `none`. -/
def parseFile (allFilesMap : FileMap) (fd : FileDescriptorProto) : PKFileDescriptor :=
  let cs := ParseComments fd
  let msgs := parseMessages fd.pkg cs none fd.messageType
  { comments := cs
    desc := fd
    PackageComments := commentsGet cs (toString packageCommentPath)
    SyntaxComments := commentsGet cs (toString stxCommentPath)
    Enums := parseEnums fd.pkg cs none fd.enumType
    Extensions := parseExtensions fd.pkg cs none fd.extension
    Messages := msgs
    Services := parseServices fd.pkg cs msgs fd.service
    Imports := []
    Dependencies := fd.dependency.map (fun dep =>
      if (mapLookup allFilesMap dep).isSome then some dep else none)
    PublicDependencies := fd.publicDependency.map (fun idx =>
      match fd.dependency.get? idx with
      | some dn => if (mapLookup allFilesMap dn).isSome then some dn else none
      | none => none)
    IsFileToGenerate := false }

/-- The building loop of `ParseCodeGenRequestAllFiles` (src/unnamed/part_001
lines 98-100): each file is parsed with the map as filled so far, then
inserted under its name. -/
def buildAllFiles : List FileDescriptorProto → FileMap → FileMap
  | [], m => m
  | pf :: rest, m => buildAllFiles rest (mapInsert m pf.name (parseFile m pf))

/-- The entities one dependency file contributes to an importing file's
list of imports (src/unnamed/part_001 lines 244-257): top-level messages that
are not map-entry synthetics, then top-level enums, then top-level
extensions, each as a copy of the entity's common facet. -/
def exportedEntriesOfFile (d : PKFileDescriptor) : List PKImportedDescriptor :=
  (d.Messages.filter (fun m => !m.desc.mapEntry)).map (fun m => ⟨m.common⟩)
    ++ d.Enums.map (fun e => ⟨e.common⟩)
    ++ d.Extensions.map (fun x => ⟨x.common⟩)

/-- The dependency loop of `parseAllImports` (src/unnamed/part_001 lines
241-258): dependencies in declared order; a dependency name absent from the
map makes Go dereference a nil file pointer (modelled as `none`). -/
def resolveImports (allFiles : FileMap) : List String → Option (List PKImportedDescriptor)
  | [] => some []
  | dn :: rest =>
    match mapLookup allFiles dn with
    | none => none
    | some d =>
      match resolveImports allFiles rest with
      | none => none
      | some tail => some (exportedEntriesOfFile d ++ tail)

/-- `parseAllImports` (src/unnamed/part_001 lines 238-259). -/
def parseAllImports (f : PKFileDescriptor) (allFiles : FileMap) : Option PKFileDescriptor :=
  (resolveImports allFiles f.desc.dependency).map (fun l => { f with Imports := l })

/-- The linking loop of `ParseCodeGenRequestAllFiles` (src/unnamed/part_001
lines 102-105): run `parseAllImports` on every file in the map. -/
def linkEntries (allFiles : FileMap) : FileMap → Option FileMap
  | [] => some []
  | (n, f) :: rest =>
    match parseAllImports f allFiles, linkEntries allFiles rest with
    | some f2, some rest2 => some ((n, f2) :: rest2)
    | _, _ => none

/-- The marking loop of `ParseCodeGenRequestAllFiles` (src/unnamed/part_001
lines 107-110): sets `IsFileToGenerate` through the map; a generate name
absent from the map makes Go write through a nil pointer (modelled as
`none`). -/
def markFilesToGenerate (m : FileMap) : List String → Option FileMap
  | [] => some m
  | n :: rest =>
    match mapLookup m n with
    | none => none
    | some f => markFilesToGenerate (mapInsert m n { f with IsFileToGenerate := true }) rest

/-- Lexicographic "at most" on character lists, modelling Go's `<`/`<=`
comparison of the ASCII file-name strings the driver sorts by. -/
def listLexLe : List Char → List Char → Bool
  | [], _ => true
  | _ :: _, [] => false
  | a :: as, b :: bs => if a = b then listLexLe as bs else decide (a < b)

/-- Go string comparison `a <= b` on the file names being sorted. -/
def strLe (a b : String) : Bool := listLexLe a.data b.data

/-- The ordering used by the final `sort.Slice` (src/unnamed/part_001 lines
112-114): by file name (the Go code's `less` is the strict part of this
order). -/
def fileLe (a b : PKFileDescriptor) : Prop := strLe a.desc.name b.desc.name = true

instance : DecidableRel fileLe := fun a b =>
  inferInstanceAs (Decidable (strLe a.desc.name b.desc.name = true))

theorem listLexLe_total : ∀ x y : List Char, listLexLe x y = true ∨ listLexLe y x = true
  | [], _ => Or.inl rfl
  | _ :: _, [] => Or.inr rfl
  | a :: as, b :: bs => by
    by_cases hab : a = b
    · subst hab
      rcases listLexLe_total as bs with h | h
      · exact Or.inl (by simpa [listLexLe] using h)
      · exact Or.inr (by simpa [listLexLe] using h)
    · rcases lt_or_gt_of_ne hab with h | h
      · exact Or.inl (by simp [listLexLe, hab, h])
      · exact Or.inr (by simp [listLexLe, Ne.symm hab, h])

theorem listLexLe_trans :
    ∀ x y z : List Char, listLexLe x y = true → listLexLe y z = true →
      listLexLe x z = true
  | [], _, _, _, _ => rfl
  | a :: as, [], _, h1, _ => by simp [listLexLe] at h1
  | a :: as, b :: bs, [], _, h2 => by simp [listLexLe] at h2
  | a :: as, b :: bs, c :: cs, h1, h2 => by
    by_cases hab : a = b <;> by_cases hbc : b = c
    · subst hab; subst hbc
      simp only [listLexLe, if_pos rfl] at h1 h2 ⊢
      exact listLexLe_trans as bs cs h1 h2
    · subst hab
      simpa [listLexLe, hbc] using h2
    · subst hbc
      simpa [listLexLe, hab] using h1
    · simp only [listLexLe, if_neg hab] at h1
      simp only [listLexLe, if_neg hbc] at h2
      have hac : a < c := lt_trans (of_decide_eq_true h1) (of_decide_eq_true h2)
      have hne : a ≠ c := ne_of_lt hac
      simp [listLexLe, hne, hac]

instance : IsTotal PKFileDescriptor fileLe :=
  ⟨fun a b => listLexLe_total a.desc.name.data b.desc.name.data⟩

instance : IsTrans PKFileDescriptor fileLe :=
  ⟨fun _ _ _ h1 h2 => listLexLe_trans _ _ _ h1 h2⟩

/-- The final `sort.Slice` (src/unnamed/part_001 lines 112-114): a sorted
permutation of the collected files, by file name.  (`sort.Slice` guarantees
exactly a permutation ordered by the comparison; insertion sort realises
it.) -/
def sortFiles (l : List PKFileDescriptor) : List PKFileDescriptor :=
  List.insertionSort fileLe l

/-- `ParseCodeGenRequestAllFiles` (src/unnamed/part_001 lines 86-117, current
variant).  The pre-passes `getAllFileDescriptor`, `registerAllExtensions` and
`reUnmarshalReq` only feed the protoreflect mirrors and the option scanner,
which are outside every claim, and are omitted.  Go appends the linked files
to a slice and marks generate targets through shared pointers; functionally:
link every map entry, mark, take the values, sort. -/
def ParseCodeGenRequestAllFiles (req : CodeGeneratorRequest) :
    Option (List PKFileDescriptor) :=
  let m := buildAllFiles req.protoFile []
  match linkEntries m m with
  | none => none
  | some linked =>
    match markFilesToGenerate linked req.fileToGenerate with
    | none => none
    | some marked => some (sortFiles (marked.map Prod.snd))

/-- `parseFile` of the legacy variant (src/unnamed/part_001 lines 478-501):
identical construction except that the legacy file struct has no
dependency-pointer fields at all.  (The legacy entity types also use the
legacy `newCommon`; that difference is captured by `newCommonLegacy` and is
irrelevant to the file-level ordering and marking facts proved about this
variant.) -/
def parseFileLegacy (fd : FileDescriptorProto) : PKFileDescriptor :=
  let cs := ParseComments fd
  let msgs := parseMessages fd.pkg cs none fd.messageType
  { comments := cs
    desc := fd
    PackageComments := commentsGet cs (toString packageCommentPath)
    SyntaxComments := commentsGet cs (toString stxCommentPath)
    Enums := parseEnums fd.pkg cs none fd.enumType
    Extensions := parseExtensions fd.pkg cs none fd.extension
    Messages := msgs
    Services := parseServices fd.pkg cs msgs fd.service
    Imports := []
    Dependencies := []
    PublicDependencies := []
    IsFileToGenerate := false }

def buildAllFilesLegacy : List FileDescriptorProto → FileMap → FileMap
  | [], m => m
  | pf :: rest, m => buildAllFilesLegacy rest (mapInsert m pf.name (parseFileLegacy pf))

/-- `ParseCodeGenRequestAllFiles` of the legacy variant (src/unnamed/part_001
lines 450-476): same pipeline but the collected files are returned in map
iteration order (modelled as insertion order, one admissible order for a Go
map) with no sort. -/
def ParseCodeGenRequestAllFilesLegacy (req : CodeGeneratorRequest) :
    Option (List PKFileDescriptor) :=
  let m := buildAllFilesLegacy req.protoFile []
  match linkEntries m m with
  | none => none
  | some linked =>
    match markFilesToGenerate linked req.fileToGenerate with
    | none => none
    | some marked => some (marked.map Prod.snd)


/-- Keys of the association map are pairwise distinct. -/
def keysNodup {V : Type} (m : List (String × V)) : Prop :=
  (m.map Prod.fst).Nodup

/-
Decidable equality for the nested inductives, needed to evaluate concrete
facts about assembled trees.
-/

mutual

def descDecEq : (a b : DescriptorProto) → Decidable (a = b)
  | .mk n1 f1 nt1 e1 x1 m1, .mk n2 f2 nt2 e2 x2 m2 =>
    letI : Decidable (nt1 = nt2) := descListDecEq nt1 nt2
    decidable_of_iff (n1 = n2 ∧ f1 = f2 ∧ nt1 = nt2 ∧ e1 = e2 ∧ x1 = x2 ∧ m1 = m2)
      (Iff.of_eq (DescriptorProto.mk.injEq n1 f1 nt1 e1 x1 m1 n2 f2 nt2 e2 x2 m2).symm)

def descListDecEq : (a b : List DescriptorProto) → Decidable (a = b)
  | [], [] => isTrue rfl
  | [], _ :: _ => isFalse (by simp)
  | _ :: _, [] => isFalse (by simp)
  | a :: as, b :: bs =>
    letI : Decidable (a = b) := descDecEq a b
    letI : Decidable (as = bs) := descListDecEq as bs
    decidable_of_iff (a = b ∧ as = bs) (Iff.of_eq (List.cons.injEq a as b bs).symm)

end

instance : DecidableEq DescriptorProto := descDecEq

mutual

def pkDescDecEq : (a b : PKDescriptor) → Decidable (a = b)
  | .mk c1 d1 cm1 e1 x1 f1 m1, .mk c2 d2 cm2 e2 x2 f2 m2 =>
    letI : Decidable (m1 = m2) := pkDescListDecEq m1 m2
    decidable_of_iff (c1 = c2 ∧ d1 = d2 ∧ cm1 = cm2 ∧ e1 = e2 ∧ x1 = x2 ∧ f1 = f2 ∧ m1 = m2)
      (Iff.of_eq (PKDescriptor.mk.injEq c1 d1 cm1 e1 x1 f1 m1 c2 d2 cm2 e2 x2 f2 m2).symm)

def pkDescListDecEq : (a b : List PKDescriptor) → Decidable (a = b)
  | [], [] => isTrue rfl
  | [], _ :: _ => isFalse (by simp)
  | _ :: _, [] => isFalse (by simp)
  | a :: as, b :: bs =>
    letI : Decidable (a = b) := pkDescDecEq a b
    letI : Decidable (as = bs) := pkDescListDecEq as bs
    decidable_of_iff (a = b ∧ as = bs) (Iff.of_eq (List.cons.injEq a as b bs).symm)

end

instance : DecidableEq PKDescriptor := pkDescDecEq

deriving instance DecidableEq for FileDescriptorProto

deriving instance DecidableEq for PKMethodDescriptor

deriving instance DecidableEq for PKServiceDescriptor

deriving instance DecidableEq for PKFileDescriptor

/-
Extraction helpers used to state concrete facts about driver outputs.
-/

/-- The file list of a driver result (empty on failure). -/
def filesOf (o : Option (List PKFileDescriptor)) : List PKFileDescriptor :=
  o.getD []

/-- The i-th file of a driver result. -/
def fileOut (o : Option (List PKFileDescriptor)) (i : Nat) : PKFileDescriptor :=
  (filesOf o).getD i default

/-- The i-th top-level message of a file. -/
def msgOut (f : PKFileDescriptor) (i : Nat) : PKDescriptor :=
  f.Messages.getD i default

/-- The i-th top-level enum of a file. -/
def enumOut (f : PKFileDescriptor) (i : Nat) : PKEnumDescriptor :=
  f.Enums.getD i default

/-- The i-th value of an enum. -/
def valueOut (e : PKEnumDescriptor) (i : Nat) : PKEnumValueDescriptor :=
  e.Values.getD i default

/-- The i-th service of a file. -/
def svcOut (f : PKFileDescriptor) (i : Nat) : PKServiceDescriptor :=
  f.Services.getD i default

/-- The i-th method of a service. -/
def methodOut (s : PKServiceDescriptor) (i : Nat) : PKMethodDescriptor :=
  s.Methods.getD i default

/-
Claim-side formulas, written from the spec's words, to be compared with the
source-derived builders.
-/

/-- The documentation path the spec prescribes (spec section 4.4): `tag.i`
for a top-level entity, `parentPath.tag.i` for a nested one. -/
def specPath (parentPath : Option String) (tag i : Nat) : String :=
  match parentPath with
  | none => toString tag ++ "." ++ toString i
  | some pp => pp ++ "." ++ toString tag ++ "." ++ toString i

/-- The extension long name the spec prescribes (spec section 4.4): the naive
`extendee + "." + name`, collapsed to the last extendee segment plus the name
when the package occurs as a substring of the naive long name. -/
def specExtensionLongName (pkg extendee name : String) : String :=
  let naive := extendee ++ "." ++ name
  if strContains naive pkg then lastDotSegment extendee ++ "." ++ name else naive

/-
Concrete requests used by counterexamples and witnesses.
-/

/-- A one-file batch with an empty package and one top-level message `M`. -/
def reqC1 : CodeGeneratorRequest :=
  { fileToGenerate := []
    protoFile :=
      [ { name := "t.proto", pkg := "", dependency := [], publicDependency := []
          messageType := [DescriptorProto.mk "M" [] [] [] [] false]
          enumType := [], service := [], extension := [], sourceInfo := [] } ] }

/-- A one-file batch in package `p` with one enum `E` and an authored
comment at path `5.0`. -/
def reqC9 : CodeGeneratorRequest :=
  { fileToGenerate := []
    protoFile :=
      [ { name := "c.proto", pkg := "p", dependency := [], publicDependency := []
          messageType := [], enumType := [{ name := "E", value := [] }]
          service := [], extension := []
          sourceInfo := [("5.0", { leading := "x", trailing := "", detached := [] })] } ] }

/-- A one-file batch in package `pa` with enum `E` (value `V`), message `M`
and service `S`. -/
def reqC5 : CodeGeneratorRequest :=
  { fileToGenerate := []
    protoFile :=
      [ { name := "r.proto", pkg := "pa", dependency := [], publicDependency := []
          messageType := [DescriptorProto.mk "M" [] [] [] [] false]
          enumType := [{ name := "E", value := [{ name := "V" }] }]
          service := [{ name := "S", method := [] }], extension := []
          sourceInfo := [] } ] }

/-- A two-file batch listed in reverse-alphabetical order. -/
def reqC7 : CodeGeneratorRequest :=
  { fileToGenerate := []
    protoFile :=
      [ { name := "b.proto", pkg := "", dependency := [], publicDependency := []
          messageType := [], enumType := [], service := [], extension := []
          sourceInfo := [] }
      , { name := "a.proto", pkg := "", dependency := [], publicDependency := []
          messageType := [], enumType := [], service := [], extension := []
          sourceInfo := [] } ] }

/-- A two-file batch: `a.proto` (package `pa`) defines message `Req`;
`b.proto` (package `pb`) depends on it and declares a service whose method
input and output are the cross-file type `.pa.Req`. -/
def reqC3 : CodeGeneratorRequest :=
  { fileToGenerate := []
    protoFile :=
      [ { name := "a.proto", pkg := "pa", dependency := [], publicDependency := []
          messageType := [DescriptorProto.mk "Req" [] [] [] [] false]
          enumType := [], service := [], extension := [], sourceInfo := [] }
      , { name := "b.proto", pkg := "pb", dependency := ["a.proto"], publicDependency := []
          messageType := [], enumType := []
          service := [{ name := "S",
                        method := [{ name := "Call", inputType := ".pa.Req",
                                     outputType := ".pa.Req" }] }]
          extension := [], sourceInfo := [] } ] }

/-- A two-file batch: `d.proto` defines message `M` (with nested `N`), a
synthetic map-entry message, enum `Color` and an extension; `x.proto`
depends on `d.proto`. -/
def reqC2 : CodeGeneratorRequest :=
  { fileToGenerate := []
    protoFile :=
      [ { name := "d.proto", pkg := "", dependency := [], publicDependency := []
          messageType :=
            [ DescriptorProto.mk "M" [] [DescriptorProto.mk "N" [] [] [] [] false] [] [] false
            , DescriptorProto.mk "PairEntry" [] [] [] [] true ]
          enumType := [{ name := "Color", value := [] }]
          service := []
          extension := [{ name := "pext", extendee := "Base" }]
          sourceInfo := [] }
      , { name := "x.proto", pkg := "", dependency := ["d.proto"], publicDependency := []
          messageType := [], enumType := [], service := [], extension := []
          sourceInfo := [] } ] }

/-- A two-file batch in which the dependent file `f.proto` appears before its
dependency `d.proto`. -/
def reqC4 : CodeGeneratorRequest :=
  { fileToGenerate := []
    protoFile :=
      [ { name := "f.proto", pkg := "", dependency := ["d.proto"], publicDependency := []
          messageType := [], enumType := [], service := [], extension := []
          sourceInfo := [] }
      , { name := "d.proto", pkg := "", dependency := [], publicDependency := []
          messageType := [], enumType := [], service := [], extension := []
          sourceInfo := [] } ] }

/-- The same batch as `reqC4` but in topological order: the dependency
`d.proto` first. -/
def reqC4w : CodeGeneratorRequest :=
  { fileToGenerate := []
    protoFile :=
      [ { name := "d.proto", pkg := "", dependency := [], publicDependency := []
          messageType := [], enumType := [], service := [], extension := []
          sourceInfo := [] }
      , { name := "f.proto", pkg := "", dependency := ["d.proto"], publicDependency := []
          messageType := [], enumType := [], service := [], extension := []
          sourceInfo := [] } ] }

/-- A two-file batch requesting generation of `y.proto` only. -/
def reqC10 : CodeGeneratorRequest :=
  { fileToGenerate := ["y.proto"]
    protoFile :=
      [ { name := "x.proto", pkg := "", dependency := [], publicDependency := []
          messageType := [], enumType := [], service := [], extension := []
          sourceInfo := [] }
      , { name := "y.proto", pkg := "", dependency := [], publicDependency := []
          messageType := [], enumType := [], service := [], extension := []
          sourceInfo := [] } ] }

/-- Every dependency name of every file is declared by an earlier file of
the list (`seen` holds the names already available). -/
def depsTopologicalGo : List String → List FileDescriptorProto → Bool
  | _, [] => true
  | seen, pf :: rest =>
    pf.dependency.all (fun d => seen.contains d) && depsTopologicalGo (pf.name :: seen) rest

/-- The request lists files in topological order: every dependency appears
strictly earlier (the order protoc guarantees for CodeGeneratorRequest). -/
def depsTopological (protos : List FileDescriptorProto) : Bool :=
  depsTopologicalGo [] protos

/-- Every public-dependency index points into the dependency name list. -/
def pubIndicesValid (protos : List FileDescriptorProto) : Bool :=
  protos.all (fun fd => fd.publicDependency.all (fun idx => idx < fd.dependency.length))

/-
Generic list and association-map lemmas used by the claim proofs.
-/

theorem getD_mem {α : Type} (l : List α) (i : Nat) (d : α) (h : i < l.length) :
    l.getD i d ∈ l := by
  rw [List.getD_eq_getElem l d h]
  exact List.getElem_mem h

theorem find?_unique {α : Type} (p : α → Bool) :
    ∀ (l : List α) (x : α), x ∈ l → p x = true →
      (∀ y ∈ l, p y = true → y = x) → l.find? p = some x
  | [], x, hx, _, _ => absurd hx (List.not_mem_nil x)
  | a :: t, x, hx, hpx, huniq => by
    by_cases ha : p a = true
    · have hax : a = x := huniq a (List.mem_cons_self a t) ha
      subst hax
      exact List.find?_cons_of_pos t ha
    · have hne : p a = false := by simpa using ha
      have hxt : x ∈ t := by
        rcases List.mem_cons.mp hx with h | h
        · subst h; exact absurd hpx ha
        · exact h
      rw [List.find?_cons_of_neg t (by simp [hne])]
      exact find?_unique p t x hxt hpx (fun y hy hpy => huniq y (List.mem_cons_of_mem a hy) hpy)

theorem mapLookup_mapInsert_self {V : Type} :
    ∀ (m : List (String × V)) (k : String) (v : V),
      mapLookup (mapInsert m k v) k = some v
  | [], k, v => by simp [mapInsert, mapLookup]
  | (k0, v0) :: rest, k, v => by
    by_cases h : k0 = k
    · simp [mapInsert, h, mapLookup]
    · simp only [mapInsert, if_neg h, mapLookup, if_neg h]
      exact mapLookup_mapInsert_self rest k v

theorem mapLookup_mapInsert_ne {V : Type} :
    ∀ (m : List (String × V)) (k : String) (v : V) (key : String), key ≠ k →
      mapLookup (mapInsert m k v) key = mapLookup m key
  | [], k, v, key, hne => by simp [mapInsert, mapLookup, Ne.symm hne]
  | (k0, v0) :: rest, k, v, key, hne => by
    by_cases h : k0 = k
    · subst h
      simp [mapInsert, mapLookup, Ne.symm hne]
    · simp only [mapInsert, if_neg h, mapLookup]
      by_cases h0 : k0 = key
      · simp [h0]
      · simp only [if_neg h0]
        exact mapLookup_mapInsert_ne rest k v key hne

theorem mapLookup_mem {V : Type} :
    ∀ (m : List (String × V)) (k : String) (v : V),
      mapLookup m k = some v → (k, v) ∈ m
  | [], k, v, h => by simp [mapLookup] at h
  | (k0, v0) :: rest, k, v, h => by
    by_cases h0 : k0 = k
    · subst h0
      simp only [mapLookup, if_pos trivial, Option.some.injEq] at h
      subst h
      exact List.mem_cons_self _ _
    · simp only [mapLookup, if_neg h0] at h
      exact List.mem_cons_of_mem _ (mapLookup_mem rest k v h)

theorem mem_mapInsert {V : Type} :
    ∀ (m : List (String × V)) (k : String) (v : V) (nf : String × V),
      nf ∈ mapInsert m k v → nf = (k, v) ∨ nf ∈ m
  | [], k, v, nf, h => by simpa [mapInsert] using h
  | (k0, v0) :: rest, k, v, nf, h => by
    by_cases h0 : k0 = k
    · simp only [mapInsert, if_pos h0] at h
      rcases List.mem_cons.mp h with h | h
      · exact Or.inl h
      · exact Or.inr (List.mem_cons_of_mem _ h)
    · simp only [mapInsert, if_neg h0] at h
      rcases List.mem_cons.mp h with h | h
      · exact Or.inr (h ▸ List.mem_cons_self _ _)
      · rcases mem_mapInsert rest k v nf h with h | h
        · exact Or.inl h
        · exact Or.inr (List.mem_cons_of_mem _ h)

theorem keys_mapInsert_of_lookup {V : Type} :
    ∀ (m : List (String × V)) (k : String) (v f : V),
      mapLookup m k = some f →
      (mapInsert m k v).map Prod.fst = m.map Prod.fst
  | [], k, v, f, h => by simp [mapLookup] at h
  | (k0, v0) :: rest, k, v, f, h => by
    by_cases h0 : k0 = k
    · subst h0
      simp [mapInsert]
    · simp only [mapLookup, if_neg h0] at h
      simp only [mapInsert, if_neg h0, List.map_cons]
      rw [keys_mapInsert_of_lookup rest k v f h]

theorem mapLookup_eq_none_of_not_mem_keys {V : Type} :
    ∀ (m : List (String × V)) (k : String), k ∉ m.map Prod.fst →
      mapLookup m k = none
  | [], _, _ => rfl
  | (k0, v0) :: rest, k, h => by
    simp only [List.map_cons, List.mem_cons] at h
    push_neg at h
    have hk0 : ¬ k0 = k := fun he => h.1 he.symm
    simp only [mapLookup, if_neg hk0]
    exact mapLookup_eq_none_of_not_mem_keys rest k h.2

theorem mapLookup_of_mem {V : Type} :
    ∀ (m : List (String × V)) (k : String) (v : V),
      (k, v) ∈ m → keysNodup m → mapLookup m k = some v
  | [], k, v, h, _ => absurd h (List.not_mem_nil _)
  | (k0, v0) :: rest, k, v, h, hnd => by
    have hnd' : k0 ∉ rest.map Prod.fst ∧ (rest.map Prod.fst).Nodup := by
      simpa [keysNodup, List.nodup_cons] using hnd
    rcases List.mem_cons.mp h with h | h
    · cases h
      simp [mapLookup]
    · have hk0 : ¬ k0 = k := by
        intro he
        subst he
        exact hnd'.1 (List.mem_map.mpr ⟨(k0, v), h, rfl⟩)
      simp only [mapLookup, if_neg hk0]
      exact mapLookup_of_mem rest k v h hnd'.2

theorem keys_mapInsert {V : Type} :
    ∀ (m : List (String × V)) (k : String) (v : V),
      (mapInsert m k v).map Prod.fst =
        if k ∈ m.map Prod.fst then m.map Prod.fst else m.map Prod.fst ++ [k]
  | [], k, v => by simp [mapInsert]
  | (k0, v0) :: rest, k, v => by
    by_cases h0 : k0 = k
    · subst h0
      simp [mapInsert]
    · have hne : k ≠ k0 := fun he => h0 he.symm
      simp only [mapInsert, if_neg h0, List.map_cons, keys_mapInsert rest k v,
        List.mem_cons]
      by_cases hk : k ∈ rest.map Prod.fst
      · simp [hk]
      · simp [hk, hne]

theorem keysNodup_mapInsert {V : Type} (m : List (String × V)) (k : String) (v : V)
    (hnd : keysNodup m) : keysNodup (mapInsert m k v) := by
  unfold keysNodup at hnd ⊢
  rw [keys_mapInsert]
  by_cases hk : k ∈ m.map Prod.fst
  · simpa [hk] using hnd
  · simp only [if_neg hk]
    simp [List.nodup_append, hnd, hk]

/-
Element-wise characterisation of the entity builders: the entry at index `k`
of each builder's output is the loop body evaluated at sibling index
`start + k`.
-/

theorem parseEnumValuesGo_get? (pkg : String) (cs : CommentIndex) (c : Common) :
    ∀ (protos : List EnumValueDescriptorProto) (i k : Nat),
      (parseEnumValuesGo pkg cs c i protos).get? k
        = (protos.get? k).map (enumValueAt pkg cs c (i + k))
  | [], i, k => by simp [parseEnumValuesGo]
  | vd :: rest, i, 0 => by simp [parseEnumValuesGo]
  | vd :: rest, i, k + 1 => by
    have h : i + (k + 1) = (i + 1) + k := by omega
    simp only [parseEnumValuesGo, List.get?_cons_succ]
    rw [h]
    exact parseEnumValuesGo_get? pkg cs c rest (i + 1) k

theorem parseEnumsGo_get? (pkg : String) (cs : CommentIndex) (parent : Option Common) :
    ∀ (protos : List EnumDescriptorProto) (i k : Nat),
      (parseEnumsGo pkg cs parent i protos).get? k
        = (protos.get? k).map (enumAt pkg cs parent (i + k))
  | [], i, k => by simp [parseEnumsGo]
  | ed :: rest, i, 0 => by simp [parseEnumsGo]
  | ed :: rest, i, k + 1 => by
    have h : i + (k + 1) = (i + 1) + k := by omega
    simp only [parseEnumsGo, List.get?_cons_succ]
    rw [h]
    exact parseEnumsGo_get? pkg cs parent rest (i + 1) k

theorem parseExtensionsGo_get? (pkg : String) (cs : CommentIndex) (parent : Option Common) :
    ∀ (protos : List FieldDescriptorProto) (i k : Nat),
      (parseExtensionsGo pkg cs parent i protos).get? k
        = (protos.get? k).map (extensionAt pkg cs parent (i + k))
  | [], i, k => by simp [parseExtensionsGo]
  | ext :: rest, i, 0 => by simp [parseExtensionsGo]
  | ext :: rest, i, k + 1 => by
    have h : i + (k + 1) = (i + 1) + k := by omega
    simp only [parseExtensionsGo, List.get?_cons_succ]
    rw [h]
    exact parseExtensionsGo_get? pkg cs parent rest (i + 1) k

theorem parseMessageFieldsGo_get? (pkg : String) (cs : CommentIndex) (msgC : Common) :
    ∀ (protos : List FieldDescriptorProto) (i k : Nat),
      (parseMessageFieldsGo pkg cs msgC i protos).get? k
        = (protos.get? k).map (fieldAt pkg cs msgC (i + k))
  | [], i, k => by simp [parseMessageFieldsGo]
  | fd :: rest, i, 0 => by simp [parseMessageFieldsGo]
  | fd :: rest, i, k + 1 => by
    have h : i + (k + 1) = (i + 1) + k := by omega
    simp only [parseMessageFieldsGo, List.get?_cons_succ]
    rw [h]
    exact parseMessageFieldsGo_get? pkg cs msgC rest (i + 1) k

theorem parseMessagesGo_get? (pkg : String) (cs : CommentIndex) (parent : Option Common) :
    ∀ (protos : List DescriptorProto) (i k : Nat),
      (parseMessagesGo pkg cs parent i protos).get? k
        = (protos.get? k).map (messageAt pkg cs parent (i + k))
  | [], i, k => by simp [parseMessagesGo]
  | md :: rest, i, 0 => by simp [parseMessagesGo]
  | md :: rest, i, k + 1 => by
    have h : i + (k + 1) = (i + 1) + k := by omega
    simp only [parseMessagesGo, List.get?_cons_succ]
    rw [h]
    exact parseMessagesGo_get? pkg cs parent rest (i + 1) k

theorem parseServiceMethodsGo_get? (pkg : String) (cs : CommentIndex) (svcC : Common)
    (msgs : List PKDescriptor) :
    ∀ (protos : List MethodDescriptorProto) (i k : Nat),
      (parseServiceMethodsGo pkg cs svcC msgs i protos).get? k
        = (protos.get? k).map (methodAt pkg cs svcC msgs (i + k))
  | [], i, k => by simp [parseServiceMethodsGo]
  | md :: rest, i, 0 => by simp [parseServiceMethodsGo]
  | md :: rest, i, k + 1 => by
    have h : i + (k + 1) = (i + 1) + k := by omega
    simp only [parseServiceMethodsGo, List.get?_cons_succ]
    rw [h]
    exact parseServiceMethodsGo_get? pkg cs svcC msgs rest (i + 1) k

theorem parseServicesGo_get? (pkg : String) (cs : CommentIndex) (msgs : List PKDescriptor) :
    ∀ (protos : List ServiceDescriptorProto) (i k : Nat),
      (parseServicesGo pkg cs msgs i protos).get? k
        = (protos.get? k).map (serviceAt pkg cs msgs (i + k))
  | [], i, k => by simp [parseServicesGo]
  | sd :: rest, i, 0 => by simp [parseServicesGo]
  | sd :: rest, i, k + 1 => by
    have h : i + (k + 1) = (i + 1) + k := by omega
    simp only [parseServicesGo, List.get?_cons_succ]
    rw [h]
    exact parseServicesGo_get? pkg cs msgs rest (i + 1) k

/-- Membership form: every element of a builder's output arises from the loop
body at some sibling index. -/
theorem mem_parseServices (pkg : String) (cs : CommentIndex) (msgs : List PKDescriptor)
    (protos : List ServiceDescriptorProto) (s : PKServiceDescriptor)
    (hs : s ∈ parseServices pkg cs msgs protos) :
    ∃ k sd, protos.get? k = some sd ∧ s = serviceAt pkg cs msgs k sd := by
  rcases List.mem_iff_get?.mp hs with ⟨k, hk⟩
  rw [parseServices, parseServicesGo_get?] at hk
  rcases Option.map_eq_some'.mp hk with ⟨sd, hsd, he⟩
  rw [Nat.zero_add] at he
  exact ⟨k, sd, hsd, he.symm⟩

theorem mem_parseServiceMethods (pkg : String) (cs : CommentIndex) (svcC : Common)
    (msgs : List PKDescriptor) (protos : List MethodDescriptorProto)
    (mt : PKMethodDescriptor) (hm : mt ∈ parseServiceMethods pkg cs svcC msgs protos) :
    ∃ k md, protos.get? k = some md ∧ mt = methodAt pkg cs svcC msgs k md := by
  rcases List.mem_iff_get?.mp hm with ⟨k, hk⟩
  rw [parseServiceMethods, parseServiceMethodsGo_get?] at hk
  rcases Option.map_eq_some'.mp hk with ⟨md, hmd, he⟩
  rw [Nat.zero_add] at he
  exact ⟨k, md, hmd, he.symm⟩

/-
String facts about the leading-dot enforcement of `newCommon`.
-/

theorem startsWithDot_dot_append (t : String) : startsWithDot ("." ++ t) = true := by
  have hd : ("." ++ t).data = '.' :: t.data := by
    rw [String.data_append]
    rfl
  simp [startsWithDot, hd]

theorem string_ne_empty_of_data {s : String} {c : Char} {cs : List Char}
    (h : s.data = c :: cs) : s ≠ "" := by
  intro he
  subst he
  simp at h

theorem startsWithDot_append_of_false (s t : String) (hs : startsWithDot s = false)
    (hne : s ≠ "") : startsWithDot (s ++ t) = false := by
  rcases hd : s.data with _ | ⟨c, cs⟩
  · exact absurd (String.ext (by simpa using hd)) hne
  · have hc : (c == '.') = false := by simpa [startsWithDot, hd] using hs
    have hd2 : (s ++ t).data = c :: (cs ++ t.data) := by
      rw [String.data_append, hd]
      rfl
    simp [startsWithDot, hd2, hc]

theorem dot_append_ne_empty (s t : String) : s ++ "." ++ t ≠ "" := by
  intro he
  have := congrArg String.data he
  rw [String.data_append, String.data_append] at this
  simp at this

/-- Claim C1 (amended).  For the current `newCommon` (src/unnamed/part_000):
the full name always begins with a dot; when the long name has no leading dot
and the package is nonempty and itself dot-free, the full name is
`"." ++ package ++ "." ++ longName`; when the package is empty the package
segment collapses and the full name is `"." ++ longName` (not
`".." ++ longName`); a long name that already starts with a dot is copied
verbatim.  The legacy `newCommon` (src/types.go) performs no leading-dot
enforcement: its full name is `package ++ "." ++ longName`.  Entities built
by the assembler inherit these facts (shown for the enum builder). -/
theorem c1_fullName_amended :
    (∀ pkg path longName : String,
      startsWithDot (newCommon pkg path longName).FullName = true)
    ∧ (∀ pkg path longName : String,
      startsWithDot longName = false → startsWithDot pkg = false → pkg ≠ "" →
      (newCommon pkg path longName).FullName = "." ++ pkg ++ "." ++ longName)
    ∧ (∀ path longName : String,
      startsWithDot longName = false →
      (newCommon "" path longName).FullName = "." ++ longName)
    ∧ (∀ pkg path longName : String,
      startsWithDot longName = true →
      (newCommon pkg path longName).FullName = longName)
    ∧ (∀ pkg path longName : String,
      startsWithDot longName = false →
      (newCommonLegacy pkg path longName).FullName = pkg ++ "." ++ longName)
    ∧ (∀ (pkg : String) (cs : CommentIndex) (parent : Option Common)
        (protos : List EnumDescriptorProto) (k : Nat) (e : PKEnumDescriptor),
      (parseEnums pkg cs parent protos).get? k = some e →
      startsWithDot e.common.FullName = true) := by
  have hA : ∀ pkg path longName : String,
      startsWithDot (newCommon pkg path longName).FullName = true := by
    intro pkg path longName
    by_cases h1 : startsWithDot longName
    · simp [newCommon, h1]
    · by_cases h2 : startsWithDot (pkg ++ "." ++ longName)
      · simp [newCommon, h1, h2]
      · simp only [newCommon, h1, h2]
        simp [startsWithDot_dot_append]
  refine ⟨hA, ?_, ?_, ?_, ?_, ?_⟩
  · intro pkg path longName hL hp hne
    have hpd : startsWithDot (pkg ++ ".") = false :=
      startsWithDot_append_of_false pkg "." hp hne
    have hpdne : pkg ++ "." ≠ "" := by
      intro he
      have := congrArg String.data he
      rw [String.data_append] at this
      simp at this
    have h2 : startsWithDot (pkg ++ "." ++ longName) = false :=
      startsWithDot_append_of_false (pkg ++ ".") longName hpd hpdne
    simp only [newCommon, hL, h2, Bool.false_eq_true, if_false]
    apply String.ext
    simp [String.data_append]
  · intro path longName hL
    have h1 : ("" : String) ++ "." ++ longName = "." ++ longName := by
      apply String.ext
      simp [String.data_append]
    by_cases h2 : startsWithDot ("" ++ "." ++ longName)
    · simp only [newCommon, hL, h2, Bool.false_eq_true, if_false, if_true]
      exact h1
    · exfalso
      rw [h1, startsWithDot_dot_append] at h2
      exact h2 rfl
  · intro pkg path longName hL
    simp [newCommon, hL]
  · intro pkg path longName hL
    simp [newCommonLegacy, hL]
  · intro pkg cs parent protos k e hk
    rw [parseEnums, parseEnumsGo_get?] at hk
    rcases Option.map_eq_some'.mp hk with ⟨ed, _, he⟩
    subst he
    cases parent <;> exact hA _ _ _

/-- Claim C1 witness: the amended statement evaluated at package "a.b",
empty package, and the legacy variant. -/
theorem c1_fullName_witness :
    (newCommon "a.b" "" "M").FullName = "." ++ "a.b" ++ "." ++ "M"
    ∧ (newCommon "" "" "M").FullName = "." ++ "M"
    ∧ (newCommon "a.b" "" ".a.b.M").FullName = ".a.b.M"
    ∧ (newCommonLegacy "a.b" "" "M").FullName = "a.b" ++ "." ++ "M" := by
  refine ⟨?_, ?_, ?_, ?_⟩
  · exact c1_fullName_amended.2.1 "a.b" "" "M" (by decide) (by decide) (by decide)
  · exact c1_fullName_amended.2.2.1 "" "M" (by decide)
  · exact c1_fullName_amended.2.2.2.1 "a.b" "" ".a.b.M" (by decide)
  · exact c1_fullName_amended.2.2.2.2.1 "a.b" "" "M" (by decide)

/-- Claim C1 counterexample: for the message `M` assembled from a file with
an empty package, `FullName` is `".M"`, not `"." ++ "" ++ "." ++ "M"`
(`"..M"`); the legacy `newCommon` of src/types.go produces `"a.b.M"` with no
leading dot at all; and a package that itself starts with a dot also breaks
the claimed equation. -/
theorem c1_fullName_counterexample :
    (msgOut (fileOut (ParseCodeGenRequestAllFiles reqC1) 0) 0).common.FullName = ".M"
    ∧ (".M" : String) ≠ "." ++ "" ++ "." ++ "M"
    ∧ (newCommonLegacy "a.b" "" "M").FullName = "a.b.M"
    ∧ startsWithDot "a.b.M" = false
    ∧ (newCommon ".q" "" "M").FullName = ".q.M"
    ∧ (".q.M" : String) ≠ "." ++ ".q" ++ "." ++ "M" := by
  refine ⟨by decide, by decide, by decide, by decide, by decide, by decide⟩

/-- Claim C6: the long name of every extension built by `parseExtensions` is
the naive concatenation `extendee + "." + name`, except that when the owning
file's package occurs as a substring of that naive long name it becomes the
last dot-separated segment of the extendee plus `"." + name`; in particular
an extension `ext` in package `a.b` extending `a.b.Base` gets long name
`Base.ext`. -/
theorem c6_extensionLongName :
    (∀ (pkg : String) (cs : CommentIndex) (parent : Option Common)
        (protos : List FieldDescriptorProto) (k : Nat) (p : FieldDescriptorProto)
        (e : PKExtensionDescriptor),
      protos.get? k = some p →
      (parseExtensions pkg cs parent protos).get? k = some e →
      e.common.LongName = specExtensionLongName pkg p.extendee p.name)
    ∧ specExtensionLongName "a.b" "a.b.Base" "ext" = "Base.ext" := by
  constructor
  · intro pkg cs parent protos k p e hp he
    rw [parseExtensions, parseExtensionsGo_get?, hp] at he
    simp only [Option.map_some', Option.some.injEq] at he
    subst he
    simp [extensionAt, newCommon, specExtensionLongName]
  · decide

/-- Claim C6 witness: the general statement applied to the spec's scenario,
an extension `ext` of `a.b.Base` declared in package `a.b`. -/
theorem c6_extensionLongName_witness :
    ((parseExtensions "a.b" [] none [{ name := "ext", extendee := "a.b.Base" }]).getD 0
      default).common.LongName = "Base.ext" := by
  have h := c6_extensionLongName.1 "a.b" [] none
      [{ name := "ext", extendee := "a.b.Base" }] 0
      { name := "ext", extendee := "a.b.Base" }
      ((parseExtensions "a.b" [] none [{ name := "ext", extendee := "a.b.Base" }]).getD 0
        default)
      (by decide) (by decide)
  exact h.trans c6_extensionLongName.2

/-- Claim C8: the documentation path used when constructing the entity at
zero-based sibling index `k` is `tag.k` for top-level entities (message 4,
enum 5, service 6, extension 7) and `parentPath.tag.k` for nested ones
(field 2, nested message 3, nested enum 4, nested extension 6, enum value 2,
method 2), and the entity's attached comment is the Comment Index entry for
exactly that path. -/
theorem c8_commentPaths :
    (∀ (pkg : String) (cs : CommentIndex) (protos : List DescriptorProto)
        (k : Nat) (md : DescriptorProto), protos.get? k = some md →
      ∃ m, (parseMessages pkg cs none protos).get? k = some m
        ∧ m.Comments = commentsGet cs (specPath none messageCommentPath k)
        ∧ m.common.path = specPath none messageCommentPath k)
    ∧ (∀ (pkg : String) (cs : CommentIndex) (p : Common) (protos : List DescriptorProto)
        (k : Nat) (md : DescriptorProto), protos.get? k = some md →
      ∃ m, (parseMessages pkg cs (some p) protos).get? k = some m
        ∧ m.Comments = commentsGet cs (specPath (some p.path) messageMessageCommentPath k)
        ∧ m.common.path = specPath (some p.path) messageMessageCommentPath k)
    ∧ (∀ (pkg : String) (cs : CommentIndex) (protos : List EnumDescriptorProto)
        (k : Nat) (ed : EnumDescriptorProto), protos.get? k = some ed →
      ∃ e, (parseEnums pkg cs none protos).get? k = some e
        ∧ e.Comments = commentsGet cs (specPath none enumCommentPath k)
        ∧ e.common.path = specPath none enumCommentPath k)
    ∧ (∀ (pkg : String) (cs : CommentIndex) (p : Common) (protos : List EnumDescriptorProto)
        (k : Nat) (ed : EnumDescriptorProto), protos.get? k = some ed →
      ∃ e, (parseEnums pkg cs (some p) protos).get? k = some e
        ∧ e.Comments = commentsGet cs (specPath (some p.path) messageEnumCommentPath k)
        ∧ e.common.path = specPath (some p.path) messageEnumCommentPath k)
    ∧ (∀ (pkg : String) (cs : CommentIndex) (protos : List FieldDescriptorProto)
        (k : Nat) (xd : FieldDescriptorProto), protos.get? k = some xd →
      ∃ x, (parseExtensions pkg cs none protos).get? k = some x
        ∧ x.Comments = commentsGet cs (specPath none extensionCommentPath k)
        ∧ x.common.path = specPath none extensionCommentPath k)
    ∧ (∀ (pkg : String) (cs : CommentIndex) (p : Common) (protos : List FieldDescriptorProto)
        (k : Nat) (xd : FieldDescriptorProto), protos.get? k = some xd →
      ∃ x, (parseExtensions pkg cs (some p) protos).get? k = some x
        ∧ x.Comments = commentsGet cs (specPath (some p.path) messageExtensionCommentPath k)
        ∧ x.common.path = specPath (some p.path) messageExtensionCommentPath k)
    ∧ (∀ (pkg : String) (cs : CommentIndex) (msgs : List PKDescriptor)
        (protos : List ServiceDescriptorProto) (k : Nat) (sd : ServiceDescriptorProto),
        protos.get? k = some sd →
      ∃ s, (parseServices pkg cs msgs protos).get? k = some s
        ∧ s.Comments = commentsGet cs (specPath none serviceCommentPath k)
        ∧ s.common.path = specPath none serviceCommentPath k)
    ∧ (∀ (pkg : String) (cs : CommentIndex) (msgC : Common)
        (protos : List FieldDescriptorProto) (k : Nat) (fd : FieldDescriptorProto),
        protos.get? k = some fd →
      ∃ f, (parseMessageFields pkg cs msgC protos).get? k = some f
        ∧ f.Comments = commentsGet cs (specPath (some msgC.path) messageFieldCommentPath k))
    ∧ (∀ (pkg : String) (cs : CommentIndex) (enumC : Common)
        (protos : List EnumValueDescriptorProto) (k : Nat) (vd : EnumValueDescriptorProto),
        protos.get? k = some vd →
      ∃ v, (parseEnumValues pkg cs enumC protos).get? k = some v
        ∧ v.Comments = commentsGet cs (specPath (some enumC.path) enumValueCommentPath k))
    ∧ (∀ (pkg : String) (cs : CommentIndex) (svcC : Common) (msgs : List PKDescriptor)
        (protos : List MethodDescriptorProto) (k : Nat) (md : MethodDescriptorProto),
        protos.get? k = some md →
      ∃ mt, (parseServiceMethods pkg cs svcC msgs protos).get? k = some mt
        ∧ mt.Comments = commentsGet cs (specPath (some svcC.path) serviceMethodCommentPath k)) := by
  refine ⟨?_, ?_, ?_, ?_, ?_, ?_, ?_, ?_, ?_, ?_⟩
  · intro pkg cs protos k md h
    rw [parseMessages, parseMessagesGo_get?]
    simp only [Nat.zero_add]
    rw [h]
    refine ⟨messageAt pkg cs none k md, rfl, ?_, ?_⟩ <;> (cases md; rfl)
  · intro pkg cs p protos k md h
    rw [parseMessages, parseMessagesGo_get?]
    simp only [Nat.zero_add]
    rw [h]
    refine ⟨messageAt pkg cs (some p) k md, rfl, ?_, ?_⟩ <;> (cases md; rfl)
  · intro pkg cs protos k ed h
    rw [parseEnums, parseEnumsGo_get?]
    simp only [Nat.zero_add]
    rw [h]
    exact ⟨enumAt pkg cs none k ed, rfl, rfl, rfl⟩
  · intro pkg cs p protos k ed h
    rw [parseEnums, parseEnumsGo_get?]
    simp only [Nat.zero_add]
    rw [h]
    exact ⟨enumAt pkg cs (some p) k ed, rfl, rfl, rfl⟩
  · intro pkg cs protos k xd h
    rw [parseExtensions, parseExtensionsGo_get?]
    simp only [Nat.zero_add]
    rw [h]
    exact ⟨extensionAt pkg cs none k xd, rfl, rfl, rfl⟩
  · intro pkg cs p protos k xd h
    rw [parseExtensions, parseExtensionsGo_get?]
    simp only [Nat.zero_add]
    rw [h]
    exact ⟨extensionAt pkg cs (some p) k xd, rfl, rfl, rfl⟩
  · intro pkg cs msgs protos k sd h
    rw [parseServices, parseServicesGo_get?]
    simp only [Nat.zero_add]
    rw [h]
    exact ⟨serviceAt pkg cs msgs k sd, rfl, rfl, rfl⟩
  · intro pkg cs msgC protos k fd h
    rw [parseMessageFields, parseMessageFieldsGo_get?]
    simp only [Nat.zero_add]
    rw [h]
    exact ⟨fieldAt pkg cs msgC k fd, rfl, rfl⟩
  · intro pkg cs enumC protos k vd h
    rw [parseEnumValues, parseEnumValuesGo_get?]
    simp only [Nat.zero_add]
    rw [h]
    exact ⟨enumValueAt pkg cs enumC k vd, rfl, rfl⟩
  · intro pkg cs svcC msgs protos k md h
    rw [parseServiceMethods, parseServiceMethodsGo_get?]
    simp only [Nat.zero_add]
    rw [h]
    exact ⟨methodAt pkg cs svcC msgs k md, rfl, rfl⟩

/-- Claim C8 witness: the top-level-enum and nested-enum cases evaluated at a
concrete index and comment table. -/
theorem c8_commentPaths_witness :
    (∃ e, (parseEnums "p" [("5.0", { leading := "doc", trailing := "", detached := [] })]
        none [{ name := "E", value := [] }]).get? 0 = some e
      ∧ e.Comments = commentsGet [("5.0", { leading := "doc", trailing := "", detached := [] })]
          (specPath none enumCommentPath 0)
      ∧ e.common.path = specPath none enumCommentPath 0)
    ∧ (∃ x, (parseExtensions "p" [] (some { path := "4.1", LongName := "M", FullName := ".p.M" })
        [{ name := "ex", extendee := ".p.M" }]).get? 0 = some x
      ∧ x.Comments = commentsGet [] (specPath (some "4.1") messageExtensionCommentPath 0)
      ∧ x.common.path = specPath (some "4.1") messageExtensionCommentPath 0) := by
  constructor
  · exact c8_commentPaths.2.2.1 "p" [("5.0", { leading := "doc", trailing := "", detached := [] })]
      [{ name := "E", value := [] }] 0 { name := "E", value := [] } (by decide)
  · exact c8_commentPaths.2.2.2.2.2.1 "p" []
      { path := "4.1", LongName := "M", FullName := ".p.M" }
      [{ name := "ex", extendee := ".p.M" }] 0 { name := "ex", extendee := ".p.M" } (by decide)

/-- Claim C9: comment lookup is total — a missing path yields the empty
"no comment" value, a present path yields its entry, and every constructed
entity's `GetComments` is the (always-defined) Comment Index entry for its
path (shown for the enum builder). -/
theorem c9_comments_never_absent :
    (∀ (cs : CommentIndex) (path : String),
      mapLookup cs path = none → commentsGet cs path = emptyComment)
    ∧ (∀ (cs : CommentIndex) (path : String) (c : Comment),
      mapLookup cs path = some c → commentsGet cs path = c)
    ∧ (∀ (pkg : String) (cs : CommentIndex) (parent : Option Common)
        (protos : List EnumDescriptorProto) (k : Nat) (e : PKEnumDescriptor),
      (parseEnums pkg cs parent protos).get? k = some e →
      ∃ p, e.GetComments = commentsGet cs p) := by
  refine ⟨?_, ?_, ?_⟩
  · intro cs path h
    simp [commentsGet, h]
  · intro cs path c h
    simp [commentsGet, h]
  · intro pkg cs parent protos k e hk
    rw [parseEnums, parseEnumsGo_get?] at hk
    rcases Option.map_eq_some'.mp hk with ⟨ed, _, he⟩
    subst he
    cases parent <;> exact ⟨_, rfl⟩

/-- Claim C9 witness: a missing path yields the empty comment; a present path
yields its entry; a concretely built enum carries a comment. -/
theorem c9_comments_never_absent_witness :
    commentsGet [] "5.0" = emptyComment
    ∧ commentsGet [("5.0", { leading := "x", trailing := "", detached := [] })] "5.0"
        = { leading := "x", trailing := "", detached := [] }
    ∧ ∃ p, (enumOut (fileOut (ParseCodeGenRequestAllFiles reqC9) 0) 0).GetComments
        = commentsGet [("5.0", { leading := "x", trailing := "", detached := [] })] p := by
  refine ⟨?_, ?_, ?_⟩
  · exact c9_comments_never_absent.1 [] "5.0" (by decide)
  · exact c9_comments_never_absent.2.1 _ "5.0" _ (by decide)
  · exact c9_comments_never_absent.2.2 "p"
      [("5.0", { leading := "x", trailing := "", detached := [] })] none
      [{ name := "E", value := [] }] 0
      (enumOut (fileOut (ParseCodeGenRequestAllFiles reqC9) 0) 0) (by decide)

/-- Claim C5 (amended): lookup round-trips hold for the keys each accessor
actually matches — by `LongName` for file-level enums, messages and services,
for message-level nested messages, enums and fields, and for service
methods; by `FullName` only for the file-level `GetMessage`; and by the
simple `Name` only for enum values (`GetNamedValue` matches nothing else) —
provided the entity is the only element of its sibling list matching the
key. -/
theorem c5_roundTrip_amended :
    (∀ (f : PKFileDescriptor) (x : PKEnumDescriptor), x ∈ f.Enums →
      (∀ y ∈ f.Enums,
        (y.GetName == x.GetLongName || y.GetLongName == x.GetLongName) = true → y = x) →
      f.GetEnum x.GetLongName = some x)
    ∧ (∀ (f : PKFileDescriptor) (x : PKDescriptor), x ∈ f.Messages →
      (∀ y ∈ f.Messages,
        (y.GetName == x.GetLongName || y.GetLongName == x.GetLongName
          || y.GetFullName == x.GetLongName) = true → y = x) →
      f.GetMessage x.GetLongName = some x)
    ∧ (∀ (f : PKFileDescriptor) (x : PKDescriptor), x ∈ f.Messages →
      (∀ y ∈ f.Messages,
        (y.GetName == x.GetFullName || y.GetLongName == x.GetFullName
          || y.GetFullName == x.GetFullName) = true → y = x) →
      f.GetMessage x.GetFullName = some x)
    ∧ (∀ (f : PKFileDescriptor) (x : PKServiceDescriptor), x ∈ f.Services →
      (∀ y ∈ f.Services,
        (y.GetName == x.GetLongName || y.GetLongName == x.GetLongName) = true → y = x) →
      f.GetService x.GetLongName = some x)
    ∧ (∀ (m : PKDescriptor) (x : PKDescriptor), x ∈ m.Messages →
      (∀ y ∈ m.Messages,
        (y.GetName == x.GetLongName || y.GetLongName == x.GetLongName) = true → y = x) →
      m.GetMessage x.GetLongName = some x)
    ∧ (∀ (m : PKDescriptor) (x : PKEnumDescriptor), x ∈ m.Enums →
      (∀ y ∈ m.Enums,
        (y.GetName == x.GetLongName || y.GetLongName == x.GetLongName) = true → y = x) →
      m.GetEnum x.GetLongName = some x)
    ∧ (∀ (m : PKDescriptor) (x : PKFieldDescriptor), x ∈ m.Fields →
      (∀ y ∈ m.Fields,
        (y.GetName == x.GetLongName || y.GetLongName == x.GetLongName) = true → y = x) →
      m.GetMessageField x.GetLongName = some x)
    ∧ (∀ (e : PKEnumDescriptor) (x : PKEnumValueDescriptor), x ∈ e.Values →
      (∀ y ∈ e.Values, (y.GetName == x.GetName) = true → y = x) →
      e.GetNamedValue x.GetName = some x)
    ∧ (∀ (s : PKServiceDescriptor) (x : PKMethodDescriptor), x ∈ s.Methods →
      (∀ y ∈ s.Methods,
        (y.GetName == x.GetLongName || y.GetLongName == x.GetLongName) = true → y = x) →
      s.GetNamedMethod x.GetLongName = some x) := by
  refine ⟨?_, ?_, ?_, ?_, ?_, ?_, ?_, ?_, ?_⟩ <;>
    intro c x hx hu <;>
    exact find?_unique _ _ x hx (by simp) hu

/-- Claim C5 witness: round-trips evaluated on the batch assembled from
`reqC5` — the enum value by simple name and the message by full name. -/
theorem c5_roundTrip_witness :
    (enumOut (fileOut (ParseCodeGenRequestAllFiles reqC5) 0) 0).GetNamedValue
        (valueOut (enumOut (fileOut (ParseCodeGenRequestAllFiles reqC5) 0) 0) 0).GetName
      = some (valueOut (enumOut (fileOut (ParseCodeGenRequestAllFiles reqC5) 0) 0) 0)
    ∧ (fileOut (ParseCodeGenRequestAllFiles reqC5) 0).GetMessage
        (msgOut (fileOut (ParseCodeGenRequestAllFiles reqC5) 0) 0).GetFullName
      = some (msgOut (fileOut (ParseCodeGenRequestAllFiles reqC5) 0) 0) := by
  constructor
  · exact c5_roundTrip_amended.2.2.2.2.2.2.2.1
      (enumOut (fileOut (ParseCodeGenRequestAllFiles reqC5) 0) 0)
      (valueOut (enumOut (fileOut (ParseCodeGenRequestAllFiles reqC5) 0) 0) 0)
      (by decide) (by decide)
  · exact c5_roundTrip_amended.2.2.1
      (fileOut (ParseCodeGenRequestAllFiles reqC5) 0)
      (msgOut (fileOut (ParseCodeGenRequestAllFiles reqC5) 0) 0)
      (by decide) (by decide)

/-- Claim C5 counterexample: on the batch assembled from `reqC5`, looking the
enum value up by its own `GetLongName` (`"E.V"`) returns nothing
(`GetNamedValue` matches simple names only), and looking the enum up by its
own `GetFullName` (`".pa.E"`) returns nothing (`GetEnum` never matches full
names), so lookup by "the exact FullName or LongName returned from its own
accessors" does not round-trip for every entity. -/
theorem c5_roundTrip_counterexample :
    (valueOut (enumOut (fileOut (ParseCodeGenRequestAllFiles reqC5) 0) 0) 0).GetLongName = "E.V"
    ∧ (enumOut (fileOut (ParseCodeGenRequestAllFiles reqC5) 0) 0).GetNamedValue "E.V" = none
    ∧ (enumOut (fileOut (ParseCodeGenRequestAllFiles reqC5) 0) 0).GetFullName = ".pa.E"
    ∧ (fileOut (ParseCodeGenRequestAllFiles reqC5) 0).GetEnum ".pa.E" = none
    ∧ ¬ ((enumOut (fileOut (ParseCodeGenRequestAllFiles reqC5) 0) 0).GetNamedValue
          ((valueOut (enumOut (fileOut (ParseCodeGenRequestAllFiles reqC5) 0) 0) 0).GetLongName)
        = some (valueOut (enumOut (fileOut (ParseCodeGenRequestAllFiles reqC5) 0) 0) 0)) := by
  refine ⟨by decide, by decide, by decide, by decide, by decide⟩

/-
Driver-level transfer lemmas: how entries of the shared file map flow
through building, linking, marking and sorting.
-/

theorem parseAllImports_eq_some {f f2 : PKFileDescriptor} {A : FileMap}
    (h : parseAllImports f A = some f2) :
    ∃ l, resolveImports A f.desc.dependency = some l ∧ f2 = { f with Imports := l } := by
  rcases Option.map_eq_some'.mp h with ⟨l, hl, he⟩
  exact ⟨l, hl, he.symm⟩

theorem linkEntries_mem (A : FileMap) :
    ∀ (l l' : FileMap), linkEntries A l = some l' →
      ∀ nf ∈ l', ∃ f, (nf.1, f) ∈ l ∧ parseAllImports f A = some nf.2
  | [], l', h, nf, hnf => by
    simp only [linkEntries, Option.some.injEq] at h
    subst h
    exact absurd hnf (List.not_mem_nil _)
  | (n, f0) :: rest, l', h, nf, hnf => by
    simp only [linkEntries] at h
    rcases h1 : parseAllImports f0 A with _ | f2 <;> rw [h1] at h
    · simp at h
    · rcases h2 : linkEntries A rest with _ | rest2 <;> rw [h2] at h
      · simp at h
      · simp only [Option.some.injEq] at h
        subst h
        rcases List.mem_cons.mp hnf with he | hm
        · subst he
          exact ⟨f0, List.mem_cons_self _ _, h1⟩
        · rcases linkEntries_mem A rest rest2 h2 nf hm with ⟨f, hf, hp⟩
          exact ⟨f, List.mem_cons_of_mem _ hf, hp⟩

theorem linkEntries_keys (A : FileMap) :
    ∀ (l l' : FileMap), linkEntries A l = some l' →
      l'.map Prod.fst = l.map Prod.fst
  | [], l', h => by
    simp only [linkEntries, Option.some.injEq] at h
    subst h
    rfl
  | (n, f0) :: rest, l', h => by
    simp only [linkEntries] at h
    rcases h1 : parseAllImports f0 A with _ | f2 <;> rw [h1] at h
    · simp at h
    · rcases h2 : linkEntries A rest with _ | rest2 <;> rw [h2] at h
      · simp at h
      · simp only [Option.some.injEq] at h
        subst h
        simp only [List.map_cons]
        rw [linkEntries_keys A rest rest2 h2]

theorem linkEntries_lookup (A : FileMap) :
    ∀ (l l' : FileMap), linkEntries A l = some l' →
      ∀ k, mapLookup l' k = (mapLookup l k).bind (fun f => parseAllImports f A)
  | [], l', h, k => by
    simp only [linkEntries, Option.some.injEq] at h
    subst h
    rfl
  | (n, f0) :: rest, l', h, k => by
    simp only [linkEntries] at h
    rcases h1 : parseAllImports f0 A with _ | f2 <;> rw [h1] at h
    · simp at h
    · rcases h2 : linkEntries A rest with _ | rest2 <;> rw [h2] at h
      · simp at h
      · simp only [Option.some.injEq] at h
        subst h
        by_cases hk : n = k
        · subst hk
          simp [mapLookup, h1]
        · simp only [mapLookup, if_neg hk]
          exact linkEntries_lookup A rest rest2 h2 k

theorem flag_update_idem (f : PKFileDescriptor) :
    ({ ({ f with IsFileToGenerate := true }) with IsFileToGenerate := true } : PKFileDescriptor)
      = { f with IsFileToGenerate := true } := rfl

theorem markFilesToGenerate_lookup :
    ∀ (names : List String) (m m' : FileMap), markFilesToGenerate m names = some m' →
      ∀ k, mapLookup m' k = (mapLookup m k).map
        (fun f => if k ∈ names then { f with IsFileToGenerate := true } else f)
  | [], m, m', h, k => by
    simp only [markFilesToGenerate, Option.some.injEq] at h
    subst h
    rcases mapLookup m k with _ | f <;> simp
  | n :: rest, m, m', h, k => by
    simp only [markFilesToGenerate] at h
    rcases hn : mapLookup m n with _ | f0 <;> rw [hn] at h
    · simp at h
    · have ih := markFilesToGenerate_lookup rest
        (mapInsert m n { f0 with IsFileToGenerate := true }) m' h
      by_cases hk : k = n
      · subst hk
        rw [ih k, mapLookup_mapInsert_self, hn]
        by_cases hr : k ∈ rest <;>
          simp [hr, List.mem_cons, flag_update_idem]
      · rw [ih k, mapLookup_mapInsert_ne m n _ k hk]
        rcases mapLookup m k with _ | f <;> simp [List.mem_cons, hk]

theorem markFilesToGenerate_none :
    ∀ (names : List String) (m : FileMap) (n : String), n ∈ names →
      mapLookup m n = none → markFilesToGenerate m names = none
  | [], m, n, hn, _ => absurd hn (List.not_mem_nil _)
  | n' :: rest, m, n, hn, hnone => by
    simp only [markFilesToGenerate]
    rcases hn' : mapLookup m n' with _ | f0
    · rfl
    · have hne : n ≠ n' := by
        intro he
        subst he
        rw [hn'] at hnone
        exact Option.noConfusion hnone
      have hmem : n ∈ rest := by
        rcases List.mem_cons.mp hn with h | h
        · exact absurd h hne
        · exact h
      exact markFilesToGenerate_none rest _ n hmem
        (by rw [mapLookup_mapInsert_ne m n' _ n hne]; exact hnone)

theorem markFilesToGenerate_isSome :
    ∀ (names : List String) (m : FileMap), (∀ n ∈ names, (mapLookup m n).isSome = true) →
      ∃ m', markFilesToGenerate m names = some m'
  | [], m, _ => ⟨m, rfl⟩
  | n :: rest, m, hall => by
    rcases hn : mapLookup m n with _ | f0
    · have := hall n (List.mem_cons_self _ _)
      rw [hn] at this
      simp at this
    · simp only [markFilesToGenerate, hn]
      apply markFilesToGenerate_isSome rest
      intro n' hn'
      by_cases he : n' = n
      · subst he
        rw [mapLookup_mapInsert_self]
        rfl
      · rw [mapLookup_mapInsert_ne m n _ n' he]
        exact hall n' (List.mem_cons_of_mem _ hn')

theorem markFilesToGenerate_keys :
    ∀ (names : List String) (m m' : FileMap), markFilesToGenerate m names = some m' →
      m'.map Prod.fst = m.map Prod.fst
  | [], m, m', h => by
    simp only [markFilesToGenerate, Option.some.injEq] at h
    subst h
    rfl
  | n :: rest, m, m', h => by
    simp only [markFilesToGenerate] at h
    rcases hn : mapLookup m n with _ | f0 <;> rw [hn] at h
    · simp at h
    · rw [markFilesToGenerate_keys rest _ m' h]
      exact keys_mapInsert_of_lookup m n _ f0 hn

theorem mem_sortFiles {x : PKFileDescriptor} {l : List PKFileDescriptor} :
    x ∈ sortFiles l ↔ x ∈ l :=
  (List.perm_insertionSort fileLe l).mem_iff

theorem sorted_sortFiles (l : List PKFileDescriptor) :
    List.Pairwise fileLe (sortFiles l) :=
  List.sorted_insertionSort fileLe l

theorem buildAllFiles_entry (Q : String × PKFileDescriptor → Prop)
    (hQ : ∀ (m : FileMap) (fd : FileDescriptorProto), Q (fd.name, parseFile m fd)) :
    ∀ (protos : List FileDescriptorProto) (m0 : FileMap),
      (∀ nf ∈ m0, Q nf) → ∀ nf ∈ buildAllFiles protos m0, Q nf
  | [], m0, h0, nf, hnf => h0 nf hnf
  | pf :: rest, m0, h0, nf, hnf => by
    apply buildAllFiles_entry Q hQ rest (mapInsert m0 pf.name (parseFile m0 pf)) _ nf hnf
    intro nf' hnf'
    rcases mem_mapInsert m0 pf.name (parseFile m0 pf) nf' hnf' with he | hm
    · subst he
      exact hQ m0 pf
    · exact h0 nf' hm

theorem buildAllFiles_keysNodup :
    ∀ (protos : List FileDescriptorProto) (m0 : FileMap),
      keysNodup m0 → keysNodup (buildAllFiles protos m0)
  | [], _, h0 => h0
  | pf :: rest, m0, h0 =>
    buildAllFiles_keysNodup rest _ (keysNodup_mapInsert m0 pf.name (parseFile m0 pf) h0)

/-- Every file returned by the current driver is a build-map entry whose
Imports were resolved against the build map, possibly flagged for
generation. -/
theorem driver_files_from_build (req : CodeGeneratorRequest)
    (files : List PKFileDescriptor)
    (h : ParseCodeGenRequestAllFiles req = some files) :
    ∀ F ∈ files, ∃ n f l, (n, f) ∈ buildAllFiles req.protoFile []
      ∧ resolveImports (buildAllFiles req.protoFile []) f.desc.dependency = some l
      ∧ (F = { f with Imports := l }
         ∨ F = { ({ f with Imports := l }) with IsFileToGenerate := true }) := by
  intro F hF
  simp only [ParseCodeGenRequestAllFiles] at h
  split at h
  next hlink => exact absurd h (by simp)
  next linked hlink =>
    split at h
    next hmark => exact absurd h (by simp)
    next marked hmark =>
      simp only [Option.some.injEq] at h
      subst h
      have hFm : F ∈ marked.map Prod.snd := mem_sortFiles.mp hF
      rcases List.mem_map.mp hFm with ⟨nf, hnf, hsnd⟩
      -- nf is an entry of the marked map
      have hkeys := markFilesToGenerate_keys req.fileToGenerate linked marked hmark
      have hknd : keysNodup marked := by
        unfold keysNodup
        rw [hkeys, linkEntries_keys _ _ _ hlink]
        exact buildAllFiles_keysNodup req.protoFile [] (by simp [keysNodup])
      have hlkm : mapLookup marked nf.1 = some nf.2 := by
        rcases nf with ⟨n, v⟩
        exact mapLookup_of_mem marked n v hnf hknd
      rw [markFilesToGenerate_lookup req.fileToGenerate linked marked hmark nf.1] at hlkm
      rcases Option.map_eq_some'.mp hlkm with ⟨f1, hf1, he1⟩
      rcases linkEntries_mem _ _ _ hlink (nf.1, f1) (mapLookup_mem _ _ _ hf1) with
        ⟨f0, hf0, hpa⟩
      rcases parseAllImports_eq_some hpa with ⟨l, hl, he2⟩
      refine ⟨nf.1, f0, l, hf0, hl, ?_⟩
      subst he2
      by_cases hgen : nf.1 ∈ req.fileToGenerate
      · right
        rw [← hsnd, ← he1, if_pos hgen]
      · left
        rw [← hsnd, ← he1, if_neg hgen]

/-- Claim C7 (amended): the current `ParseCodeGenRequestAllFiles` returns its
files sorted by file name (the legacy variant returns map-iteration order
with no sort; see the counterexample). -/
theorem c7_sorted_amended (req : CodeGeneratorRequest) (files : List PKFileDescriptor)
    (h : ParseCodeGenRequestAllFiles req = some files) :
    List.Pairwise fileLe files := by
  simp only [ParseCodeGenRequestAllFiles] at h
  split at h
  next => exact absurd h (by simp)
  next linked hlink =>
    split at h
    next => exact absurd h (by simp)
    next marked hmark =>
      simp only [Option.some.injEq] at h
      subst h
      exact sorted_sortFiles _

/-- Claim C7 witness: the sortedness statement evaluated on the concrete
reverse-ordered batch `reqC7`. -/
theorem c7_sorted_witness :
    List.Pairwise fileLe (filesOf (ParseCodeGenRequestAllFiles reqC7)) :=
  c7_sorted_amended reqC7 (filesOf (ParseCodeGenRequestAllFiles reqC7)) rfl

/-- Claim C7 counterexample: the legacy `ParseCodeGenRequestAllFiles`
(src/unnamed/part_001 lines 450-476) returns the batch of `reqC7` as
`["b.proto", "a.proto"]` — map iteration order with no sort — which is not
in increasing file-name order, so the claim fails for that cited variant. -/
theorem c7_sorted_counterexample :
    (filesOf (ParseCodeGenRequestAllFilesLegacy reqC7)).map PKFileDescriptor.GetName
        = ["b.proto", "a.proto"]
    ∧ ¬ List.Pairwise fileLe (filesOf (ParseCodeGenRequestAllFilesLegacy reqC7)) := by
  refine ⟨by decide, by decide⟩

/-- Methods built by `parseServices` resolve their input and output types by
an immediate `GetMessage` search over the owning file's top-level message
list `msgs`. -/
theorem parseServices_method_types (pkg : String) (cs : CommentIndex)
    (msgs : List PKDescriptor) (protos : List ServiceDescriptorProto) :
    ∀ s ∈ parseServices pkg cs msgs protos, ∀ mt ∈ s.Methods,
      mt.InputType = getMessageIn msgs mt.desc.inputType
      ∧ mt.OutputType = getMessageIn msgs mt.desc.outputType := by
  intro s hs mt hmt
  rcases mem_parseServices pkg cs msgs protos s hs with ⟨k, sd, _, hse⟩
  subst hse
  rcases mem_parseServiceMethods pkg cs _ msgs sd.method mt hmt with ⟨j, md, _, hme⟩
  subst hme
  exact ⟨rfl, rfl⟩

/-- Claim C3 (amended): for every method of every file returned by the
driver, input/output resolution is the construction-time search of the
owning file's top-level message list only (`GetMessage` by simple, long or
full name); nested or cross-file types therefore resolve to `none` (see the
counterexample). -/
theorem c3_methodResolution_amended (req : CodeGeneratorRequest)
    (files : List PKFileDescriptor) (F : PKFileDescriptor) (s : PKServiceDescriptor)
    (mt : PKMethodDescriptor) (h : ParseCodeGenRequestAllFiles req = some files)
    (hF : F ∈ files) (hs : s ∈ F.Services) (hmt : mt ∈ s.Methods) :
    mt.InputType = getMessageIn F.Messages mt.desc.inputType
    ∧ mt.OutputType = getMessageIn F.Messages mt.desc.outputType := by
  rcases driver_files_from_build req files h F hF with ⟨n, f, l, hmem, _, hFe⟩
  have hsv : F.Services = f.Services := by
    rcases hFe with he | he <;> subst he <;> rfl
  have hmg : F.Messages = f.Messages := by
    rcases hFe with he | he <;> subst he <;> rfl
  rw [hmg]
  have hbuild := buildAllFiles_entry
    (fun nf => ∀ s ∈ nf.2.Services, ∀ mt ∈ s.Methods,
      mt.InputType = getMessageIn nf.2.Messages mt.desc.inputType
      ∧ mt.OutputType = getMessageIn nf.2.Messages mt.desc.outputType)
    (fun m fd => parseServices_method_types fd.pkg (ParseComments fd)
      (parseMessages fd.pkg (ParseComments fd) none fd.messageType) fd.service)
    req.protoFile [] (by intro nf hnf; exact absurd hnf (List.not_mem_nil _))
    (n, f) hmem
  rw [hsv] at hs
  exact hbuild s hs mt hmt

/-- Claim C3 witness: the amended resolution equation evaluated on the
concrete batch `reqC3`. -/
theorem c3_methodResolution_witness :
    (methodOut (svcOut (fileOut (ParseCodeGenRequestAllFiles reqC3) 1) 0) 0).InputType
      = getMessageIn (fileOut (ParseCodeGenRequestAllFiles reqC3) 1).Messages
          (methodOut (svcOut (fileOut (ParseCodeGenRequestAllFiles reqC3) 1) 0) 0).desc.inputType
    ∧ (methodOut (svcOut (fileOut (ParseCodeGenRequestAllFiles reqC3) 1) 0) 0).OutputType
      = getMessageIn (fileOut (ParseCodeGenRequestAllFiles reqC3) 1).Messages
          (methodOut (svcOut (fileOut (ParseCodeGenRequestAllFiles reqC3) 1) 0) 0).desc.outputType := by
  exact c3_methodResolution_amended reqC3 (filesOf (ParseCodeGenRequestAllFiles reqC3))
    (fileOut (ParseCodeGenRequestAllFiles reqC3) 1)
    (svcOut (fileOut (ParseCodeGenRequestAllFiles reqC3) 1) 0)
    (methodOut (svcOut (fileOut (ParseCodeGenRequestAllFiles reqC3) 1) 0) 0)
    rfl
    (getD_mem _ 1 default (by decide))
    (getD_mem _ 0 default (by decide))
    (getD_mem _ 0 default (by decide))

/-- Claim C3 counterexample: in the batch of `reqC3` the method of `b.proto`
declares input and output type `.pa.Req`, which exists in the batch (it is a
top-level message of `a.proto`), yet `GetInputType`/`GetOutputType` are nil:
resolution ran at construction time against the owning file's top-level
messages only and never searched the global file set. -/
theorem c3_methodResolution_counterexample :
    (methodOut (svcOut (fileOut (ParseCodeGenRequestAllFiles reqC3) 1) 0) 0).desc.inputType
        = ".pa.Req"
    ∧ (methodOut (svcOut (fileOut (ParseCodeGenRequestAllFiles reqC3) 1) 0) 0).GetInputType
        = none
    ∧ (methodOut (svcOut (fileOut (ParseCodeGenRequestAllFiles reqC3) 1) 0) 0).GetOutputType
        = none
    ∧ (getMessageIn (fileOut (ParseCodeGenRequestAllFiles reqC3) 0).Messages ".pa.Req").isSome
        = true := by
  refine ⟨by decide, by decide, by decide, by decide⟩

/-- A successful `resolveImports` run flattens, per dependency in declared
order, the dependency file's import entries. -/
theorem resolveImports_eq (A : FileMap) :
    ∀ (deps : List String) (l : List PKImportedDescriptor),
      resolveImports A deps = some l →
      l = deps.flatMap (fun dn =>
        match mapLookup A dn with
        | some d => exportedEntriesOfFile d
        | none => [])
  | [], l, h => by
    simp only [resolveImports, Option.some.injEq] at h
    subst h
    rfl
  | dn :: rest, l, h => by
    simp only [resolveImports] at h
    rcases hdn : mapLookup A dn with _ | d <;> rw [hdn] at h
    · exact absurd h (by simp)
    · rcases ht : resolveImports A rest with _ | tail <;> rw [ht] at h
      · exact absurd h (by simp)
      · simp only [Option.some.injEq] at h
        subst h
        rw [List.flatMap_cons, hdn, resolveImports_eq A rest tail ht]

/-- Claim C2 (amended): for every file F returned by the driver, F's import
list is, per dependency of F in declared order, the dependency file's
top-level non-map-entry messages, then its top-level enums, then its
top-level extensions, each aliasing the entity's common facet
(`exportedEntriesOfFile`); nested messages of the dependency are not
included. -/
theorem c2_imports_amended (req : CodeGeneratorRequest) (files : List PKFileDescriptor)
    (F : PKFileDescriptor) (h : ParseCodeGenRequestAllFiles req = some files)
    (hF : F ∈ files) :
    resolveImports (buildAllFiles req.protoFile []) F.desc.dependency = some F.Imports
    ∧ F.Imports = F.desc.dependency.flatMap (fun dn =>
        match mapLookup (buildAllFiles req.protoFile []) dn with
        | some d => exportedEntriesOfFile d
        | none => []) := by
  rcases driver_files_from_build req files h F hF with ⟨n, f, l, _, hl, hFe⟩
  have hdesc : F.desc = f.desc := by
    rcases hFe with he | he <;> subst he <;> rfl
  have himp : F.Imports = l := by
    rcases hFe with he | he <;> subst he <;> rfl
  rw [hdesc, himp]
  exact ⟨hl, resolveImports_eq _ _ _ hl⟩

/-- Claim C2 witness: the amended import-flattening equation evaluated on the
concrete batch `reqC2` for the importing file `x.proto`. -/
theorem c2_imports_witness :
    resolveImports (buildAllFiles reqC2.protoFile [])
        (fileOut (ParseCodeGenRequestAllFiles reqC2) 1).desc.dependency
      = some (fileOut (ParseCodeGenRequestAllFiles reqC2) 1).Imports
    ∧ (fileOut (ParseCodeGenRequestAllFiles reqC2) 1).Imports
      = (fileOut (ParseCodeGenRequestAllFiles reqC2) 1).desc.dependency.flatMap (fun dn =>
          match mapLookup (buildAllFiles reqC2.protoFile []) dn with
          | some d => exportedEntriesOfFile d
          | none => []) :=
  c2_imports_amended reqC2 (filesOf (ParseCodeGenRequestAllFiles reqC2))
    (fileOut (ParseCodeGenRequestAllFiles reqC2) 1) rfl
    (getD_mem _ 1 default (by decide))

/-- Claim C2 counterexample: in the batch of `reqC2`, `x.proto` imports from
its dependency `d.proto` the top-level message `M`, the enum `Color` and the
extension (and correctly skips the map-entry synthetic), but the nested
message `M.N` of `d.proto` — which the claim says must be imported — is
absent from the import list. -/
theorem c2_imports_counterexample :
    (fileOut (ParseCodeGenRequestAllFiles reqC2) 1).Imports.map
        (fun i => i.common.LongName) = ["M", "Color", "Base.pext"]
    ∧ (msgOut (fileOut (ParseCodeGenRequestAllFiles reqC2) 0) 0).Messages.map
        (fun mm => mm.common.LongName) = ["M.N"]
    ∧ ¬ ("M.N" ∈ (fileOut (ParseCodeGenRequestAllFiles reqC2) 1).Imports.map
        (fun i => i.common.LongName)) := by
  refine ⟨by decide, by decide, by decide⟩

/-- In a topologically ordered build, every map entry has all of its
dependency pointers resolved (`some`) and all public-dependency slots
resolved. -/
theorem buildAllFiles_deps :
    ∀ (protos : List FileDescriptorProto) (seen : List String) (m0 : FileMap),
      (∀ nf ∈ m0, nf.2.Dependencies = nf.2.desc.dependency.map some
        ∧ ∀ x ∈ nf.2.PublicDependencies, x.isSome = true) →
      (∀ d ∈ seen, (mapLookup m0 d).isSome = true) →
      depsTopologicalGo seen protos = true →
      pubIndicesValid protos = true →
      ∀ nf ∈ buildAllFiles protos m0,
        nf.2.Dependencies = nf.2.desc.dependency.map some
        ∧ ∀ x ∈ nf.2.PublicDependencies, x.isSome = true
  | [], _, m0, h0, _, _, _, nf, hnf => h0 nf hnf
  | pf :: rest, seen, m0, h0, hseen, htopo, hpub, nf, hnf => by
    rw [depsTopologicalGo, Bool.and_eq_true] at htopo
    rw [pubIndicesValid, List.all_cons, Bool.and_eq_true] at hpub
    have hdeps : ∀ d ∈ pf.dependency, (mapLookup m0 d).isSome = true := by
      intro d hd
      have := (List.all_eq_true.mp htopo.1) d hd
      exact hseen d (List.mem_of_elem_eq_true this)
    have hnew : (parseFile m0 pf).Dependencies
          = (parseFile m0 pf).desc.dependency.map some
        ∧ ∀ x ∈ (parseFile m0 pf).PublicDependencies, x.isSome = true := by
      constructor
      · apply List.map_congr_left
        intro d hd
        simp [hdeps d hd]
      · intro x hx
        rcases List.mem_map.mp hx with ⟨idx, hidx, hxe⟩
        have hlt : idx < pf.dependency.length :=
          by simpa using (List.all_eq_true.mp hpub.1) idx hidx
        rcases hgd : pf.dependency.get? idx with _ | dn
        · exact absurd (List.get?_eq_none.mp hgd) (by omega)
        · have hdn : dn ∈ pf.dependency := List.get?_mem hgd
          rw [← hxe]
          rw [List.get?_eq_getElem?] at hgd
          simp [hgd, hdeps dn hdn]
    apply buildAllFiles_deps rest (pf.name :: seen)
      (mapInsert m0 pf.name (parseFile m0 pf)) _ _ htopo.2 hpub.2 nf hnf
    · intro nf' hnf'
      rcases mem_mapInsert m0 pf.name (parseFile m0 pf) nf' hnf' with he | hm
      · subst he
        exact hnew
      · exact h0 nf' hm
    · intro d hd
      by_cases he : d = pf.name
      · subst he
        rw [mapLookup_mapInsert_self]
        rfl
      · rw [mapLookup_mapInsert_ne m0 pf.name _ d he]
        exact hseen d (by
          rcases List.mem_cons.mp hd with h | h
          · exact absurd h he
          · exact h)

/-- Claim C4 (amended): dependency pointers are wired during the building
pass from the partially filled map, so they are non-nil exactly when the
dependency was parsed earlier; in particular, when the request lists files
in topological order (every dependency strictly earlier, as protoc
guarantees) and public-dependency indices are in range, every
`Dependencies[i]` of every returned file is the (non-nil) entry for the
i-th declared dependency name and every `PublicDependencies` slot is
non-nil.  For an out-of-order request the pointers are nil (see the
counterexample). -/
theorem c4_dependencies_amended (req : CodeGeneratorRequest)
    (files : List PKFileDescriptor)
    (htopo : depsTopological req.protoFile = true)
    (hpub : pubIndicesValid req.protoFile = true)
    (h : ParseCodeGenRequestAllFiles req = some files) :
    ∀ F ∈ files, F.Dependencies = F.desc.dependency.map some
      ∧ ∀ x ∈ F.PublicDependencies, x.isSome = true := by
  intro F hF
  rcases driver_files_from_build req files h F hF with ⟨n, f, l, hmem, _, hFe⟩
  have hb := buildAllFiles_deps req.protoFile [] []
    (by intro nf hnf; exact absurd hnf (List.not_mem_nil _))
    (by intro d hd; exact absurd hd (List.not_mem_nil _))
    htopo hpub (n, f) hmem
  rcases hFe with he | he <;> subst he <;> exact hb

/-- Claim C4 witness: the amended statement evaluated on the topologically
ordered batch `reqC4w`, where `f.proto`'s dependency pointer to `d.proto`
is resolved. -/
theorem c4_dependencies_witness :
    (fileOut (ParseCodeGenRequestAllFiles reqC4w) 1).Dependencies
        = (fileOut (ParseCodeGenRequestAllFiles reqC4w) 1).desc.dependency.map some
    ∧ ∀ x ∈ (fileOut (ParseCodeGenRequestAllFiles reqC4w) 1).PublicDependencies,
        x.isSome = true :=
  c4_dependencies_amended reqC4w (filesOf (ParseCodeGenRequestAllFiles reqC4w))
    (by decide) (by decide) rfl
    (fileOut (ParseCodeGenRequestAllFiles reqC4w) 1)
    (getD_mem _ 1 default (by decide))

/-- Claim C4 counterexample: in the batch of `reqC4` the dependent file
`f.proto` precedes its dependency `d.proto`, and the returned `f.proto`
carries a nil dependency pointer (`[none]`) even though `d.proto` is in the
batch — the resolution is not performed after all files exist and does
depend on request order. -/
theorem c4_dependencies_counterexample :
    (filesOf (ParseCodeGenRequestAllFiles reqC4)).map PKFileDescriptor.Dependencies
        = [[], [none]]
    ∧ (fileOut (ParseCodeGenRequestAllFiles reqC4) 1).desc.dependency = ["d.proto"]
    ∧ (fileOut (ParseCodeGenRequestAllFiles reqC4) 1).GetName = "f.proto"
    ∧ (fileOut (ParseCodeGenRequestAllFiles reqC4) 0).GetName = "d.proto"
    ∧ ¬ (∀ x ∈ (fileOut (ParseCodeGenRequestAllFiles reqC4) 1).Dependencies,
          x.isSome = true) := by
  refine ⟨by decide, by decide, by decide, by decide, by decide⟩

/-- Claim C10: marking the generate targets panics (modelled as `none`) as
soon as some name in `FileToGenerate` has no entry in the all-files map —
the code writes through the nil map entry instead of returning an error —
and when every name is present the step is safe and exactly the named files
end up with `IsFileToGenerate` set. -/
theorem c10_marking :
    (∀ (m : FileMap) (names : List String) (n : String),
      n ∈ names → mapLookup m n = none → markFilesToGenerate m names = none)
    ∧ (∀ (m : FileMap) (names : List String),
      (∀ n ∈ names, (mapLookup m n).isSome = true) →
      ∃ m', markFilesToGenerate m names = some m')
    ∧ (∀ (req : CodeGeneratorRequest) (files : List PKFileDescriptor)
        (F : PKFileDescriptor),
      ParseCodeGenRequestAllFiles req = some files → F ∈ files →
      (F.IsFileToGenerate = true ↔ F.GetName ∈ req.fileToGenerate)) := by
  refine ⟨fun m names n hn hnone => markFilesToGenerate_none names m n hn hnone,
          fun m names hall => markFilesToGenerate_isSome names m hall, ?_⟩
  intro req files F h hF
  simp only [ParseCodeGenRequestAllFiles] at h
  split at h
  next hlink => exact absurd h (by simp)
  next linked hlink =>
    split at h
    next hmark => exact absurd h (by simp)
    next marked hmark =>
      simp only [Option.some.injEq] at h
      subst h
      have hFm : F ∈ marked.map Prod.snd := mem_sortFiles.mp hF
      rcases List.mem_map.mp hFm with ⟨nf, hnf, hsnd⟩
      have hkeys := markFilesToGenerate_keys req.fileToGenerate linked marked hmark
      have hknd : keysNodup marked := by
        unfold keysNodup
        rw [hkeys, linkEntries_keys _ _ _ hlink]
        exact buildAllFiles_keysNodup req.protoFile [] (by simp [keysNodup])
      have hlkm : mapLookup marked nf.1 = some nf.2 := by
        rcases nf with ⟨n, v⟩
        exact mapLookup_of_mem marked n v hnf hknd
      rw [markFilesToGenerate_lookup req.fileToGenerate linked marked hmark nf.1] at hlkm
      rcases Option.map_eq_some'.mp hlkm with ⟨f1, hf1, he1⟩
      rcases linkEntries_mem _ _ _ hlink (nf.1, f1) (mapLookup_mem _ _ _ hf1) with
        ⟨f0, hf0, hpa⟩
      rcases parseAllImports_eq_some hpa with ⟨l, _, he2⟩
      have he2' : f1 = { f0 with Imports := l } := he2
      have hb := buildAllFiles_entry
        (fun p => p.2.desc.name = p.1 ∧ p.2.IsFileToGenerate = false)
        (fun m fd => ⟨rfl, rfl⟩)
        req.protoFile [] (by intro nf' hnf'; exact absurd hnf' (List.not_mem_nil _))
        (nf.1, f0) hf0
      have hf1name : f1.desc.name = nf.1 := by
        rw [he2']
        exact hb.1
      have hf1flag : f1.IsFileToGenerate = false := by
        rw [he2']
        exact hb.2
      rw [← hsnd, ← he1]
      by_cases hgen : nf.1 ∈ req.fileToGenerate
      · simp [hgen, hf1name, PKFileDescriptor.GetName]
      · simp [hgen, hf1flag, hf1name, PKFileDescriptor.GetName]

/-- Claim C10 witness: marking fails on a request naming a file absent from
the batch, and on the concrete batch `reqC10` exactly `y.proto` is
flagged. -/
theorem c10_marking_witness :
    markFilesToGenerate [] ["missing.proto"] = none
    ∧ ((fileOut (ParseCodeGenRequestAllFiles reqC10) 1).IsFileToGenerate = true
        ↔ (fileOut (ParseCodeGenRequestAllFiles reqC10) 1).GetName ∈ reqC10.fileToGenerate) := by
  constructor
  · exact c10_marking.1 [] ["missing.proto"] "missing.proto" (List.mem_cons_self _ _) rfl
  · exact c10_marking.2.2 reqC10 (filesOf (ParseCodeGenRequestAllFiles reqC10))
      (fileOut (ParseCodeGenRequestAllFiles reqC10) 1) rfl
      (getD_mem _ 1 default (by decide))
